import Mathlib

/-!
Verification of the rencfs encrypted filesystem core.

This file contains a shallow embedding of the two source files
`src/encrypted_fs.rs` (filesystem engine) and `src/crypto/writer.rs`
(chunked AEAD writer and seekable file writer), together with theorems
settling the specification claims about them.

Modelling conventions:
* Encryption is a stream cipher (ChaCha20) keyed identically for sealing
  and opening, so at the level of observable behaviour a sealed stream is
  its plaintext; file contents are modelled as plaintext byte lists
  (`List Nat`).  IVs and authentication tags are headers/trailers that the
  matching opener strips, so they do not appear in the plaintext model.
* `SystemTime::now()` is modelled by an explicit `now : Nat` parameter.
* The random inode chosen by `generate_next_inode` is modelled by an
  explicit `newIno` parameter constrained exactly as the generator's
  rejection loop constrains it.
* Rust functions that can panic (`unwrap` on a missing handle-table
  entry, `u64` subtraction underflow followed by out-of-range slicing)
  yield the `panicked` outcome; the reachable infinite loop in
  `write_all`'s rebuild path (offset 0) yields the `hangs` outcome.
* `cryptostream` writers write through on every call for stream ciphers,
  so an encryptor holding an open file descriptor is modelled by applying
  its writes directly to the file store; its internal stream position
  always equals the handle's `position` field (both start at 0 and are
  advanced together by `write_all`), so a single `position` field models
  both.  A decryptor reads the file contents it was opened on, modelled
  as a snapshot `data` plus the shared `position` cursor.
-/

namespace Rencfs

/-- `fuser::FileType`, restricted to the kinds the filesystem engine
distinguishes; `Symlink` stands for every kind other than
`Directory`/`RegularFile` (all of which hit the `_` arm of
`create_nod`). -/
inductive FileType where
  | Directory
  | RegularFile
  | Symlink
deriving DecidableEq, Repr

/-- `fuser::FileAttr`: the per-inode metadata record.  Timestamps are
abstract instants (`Nat`). -/
structure FileAttr where
  ino : Nat
  size : Nat
  blocks : Nat
  atime : Nat
  mtime : Nat
  ctime : Nat
  crtime : Nat
  kind : FileType
  perm : Nat
  nlink : Nat
  uid : Nat
  gid : Nat
  rdev : Nat
  blksize : Nat
  flags : Nat
deriving DecidableEq, Repr

/-- The `FsError` enum of `encrypted_fs.rs`.  ` IoError` stands for
`FsError::Io(..)` (payload dropped), `SerializeError` for
`FsError::SerializeError`, `OtherError` for `FsError::Other`,
`Encryption` for `FsError::Encryption`. -/
inductive FsError where
  | IoError
  | SerializeError
  | NotFound (msg : String)
  | InodeNotFound
  | InvalidInput
  | InvalidInodeType
  | AlreadyExists
  | NotEmpty
  | OtherError (msg : String)
  | Encryption
deriving DecidableEq, Repr

/-- Paths of regular-file content objects under `<data>/contents/`:
either the canonical file `<ino>` or a write-handle staging file
`<ino>.<handle>.tmp` (the only two shapes the engine creates). -/
inductive WPath where
  | canonical (ino : Nat)
  | tmp (ino : Nat) (handle : Nat)
deriving DecidableEq, Repr

/-- Whether the host file name ends in `".tmp"` (the rename condition in
`release_handle`). -/
def WPath.isTmp : WPath → Bool
  | .canonical _ => false
  | .tmp _ _ => true

/-- One entry of the `write_handles` table:
`(FileAttr, PathBuf, u64, write::Encryptor<File>)`.  The encryptor's
stream position always equals `position` (see the header comment), so the
encryptor itself is represented by the `path` it writes to. -/
structure WriteHandleEntry where
  attr : FileAttr
  path : WPath
  position : Nat
deriving DecidableEq, Repr

/-- One entry of the `read_handles` table:
`(FileAttr, u64, read::Decryptor<File>)`.  The decryptor is the plaintext
`data` of the file it was opened on; its stream position always equals
`position`. -/
structure ReadHandleEntry where
  attr : FileAttr
  position : Nat
  data : List Nat
deriving DecidableEq, Repr

/-- A directory entry object under `<data>/contents/<dir-ino>/`: the host
file name plus the encrypted `(ino, kind)` pair serialised inside it. -/
structure DirEntry where
  name : String
  ino : Nat
  kind : FileType
deriving DecidableEq, Repr

/-- The `EncryptedFs` state: the on-disk object stores (inode records,
regular-file/staging contents, directory contents) plus the in-memory
handle tables and handle counter. -/
structure EncryptedFs where
  inodes : Nat → Option FileAttr
  fileContents : WPath → Option (List Nat)
  dirContents : Nat → Option (List DirEntry)
  write_handles : Nat → Option WriteHandleEntry
  read_handles : Nat → Option ReadHandleEntry
  current_file_handle : Nat

/-- Result of one engine operation: a value plus the post state, an
`FsError` plus the post state, a panic (Rust `unwrap` failure /
arithmetic-underflow abort), or divergence. -/
inductive Outcome (ε : Type) (σ : Type) (α : Type) where
  | ok (a : α) (s : σ)
  | err (e : ε) (s : σ)
  | panicked
  | hangs
deriving DecidableEq

abbrev FsOutcome (α : Type) := Outcome FsError EncryptedFs α

/-! ### Store update helpers -/

def updInode (fs : EncryptedFs) (ino : Nat) (a : FileAttr) : EncryptedFs :=
  { fs with inodes := fun i => if i = ino then some a else fs.inodes i }

def eraseInode (fs : EncryptedFs) (ino : Nat) : EncryptedFs :=
  { fs with inodes := fun i => if i = ino then none else fs.inodes i }

def setFile (fs : EncryptedFs) (p : WPath) (c : Option (List Nat)) : EncryptedFs :=
  { fs with fileContents := fun q => if q = p then c else fs.fileContents q }

def setDir (fs : EncryptedFs) (ino : Nat) (es : List DirEntry) : EncryptedFs :=
  { fs with dirContents := fun i => if i = ino then some es else fs.dirContents i }

def eraseDir (fs : EncryptedFs) (ino : Nat) : EncryptedFs :=
  { fs with dirContents := fun i => if i = ino then none else fs.dirContents i }

def setWH (fs : EncryptedFs) (h : Nat) (e : WriteHandleEntry) : EncryptedFs :=
  { fs with write_handles := fun k => if k = h then some e else fs.write_handles k }

def eraseWH (fs : EncryptedFs) (h : Nat) : EncryptedFs :=
  { fs with write_handles := fun k => if k = h then none else fs.write_handles k }

def setRH (fs : EncryptedFs) (h : Nat) (e : ReadHandleEntry) : EncryptedFs :=
  { fs with read_handles := fun k => if k = h then some e else fs.read_handles k }

def eraseRH (fs : EncryptedFs) (h : Nat) : EncryptedFs :=
  { fs with read_handles := fun k => if k = h then none else fs.read_handles k }

theorem setRH_get (fs : EncryptedFs) (h : Nat) (e : ReadHandleEntry) :
    (setRH fs h e).read_handles h = some e := by
  simp [setRH]

theorem setWH_get (fs : EncryptedFs) (h : Nat) (e : WriteHandleEntry) :
    (setWH fs h e).write_handles h = some e := by
  simp [setWH]

theorem setFile_get (fs : EncryptedFs) (p : WPath) (c : Option (List Nat)) :
    (setFile fs p c).fileContents p = c := by
  simp [setFile]

/-! ### Name handling -/

/-- The `.`/`..` to `$.`/`$..` mangling applied by `exists_by_name` and
`find_by_name` before using a name as a host file name. -/
def mangle (n : String) : String :=
  if n = "." then "$." else if n = ".." then "$.." else n

/-- The inverse mapping applied by the directory iterators. -/
def unmangle (n : String) : String :=
  if n = "$." then "." else if n = "$.." then ".." else n

/-- `insert_directory_entry` strips path separators from the entry name
before using it as a host file name. -/
def stripSeparators (n : String) : String :=
  (n.replace "/" "").replace "\\" ""

/-- Reading (deserialising) the `(ino, kind)` pair stored in the entry
object named `n` of a directory. -/
def lookupEntry (es : List DirEntry) (n : String) : Option (Nat × FileType) :=
  (es.find? (fun e => e.name == n)).map (fun e => (e.ino, e.kind))

/-- Creating (with truncation) the entry object named `e.name`: an
existing object of that name is overwritten, otherwise the entry is
added. -/
def insertEntry (es : List DirEntry) (e : DirEntry) : List DirEntry :=
  if es.any (fun x => x.name == e.name) then
    es.map (fun x => if x.name == e.name then e else x)
  else es ++ [e]

/-! ### Read-only queries -/

/-- `EncryptedFs::node_exists`: the inode file `<data>/inodes/<ino>`
exists. -/
def node_exists (fs : EncryptedFs) (ino : Nat) : Bool :=
  (fs.inodes ino).isSome

/-- `EncryptedFs::get_inode` (deserialisation cannot fail in the model,
so the only failure is the missing file, reported at call sites as
`InodeNotFound`). -/
def getInode (fs : EncryptedFs) (ino : Nat) : Option FileAttr :=
  fs.inodes ino

/-- `EncryptedFs::is_dir`. -/
def is_dir (fs : EncryptedFs) (ino : Nat) : Bool :=
  match fs.inodes ino with
  | some a => a.kind = .Directory
  | none => false

/-- `EncryptedFs::is_file`. -/
def is_file (fs : EncryptedFs) (ino : Nat) : Bool :=
  match fs.inodes ino with
  | some a => a.kind = .RegularFile
  | none => false

/-- `EncryptedFs::exists_by_name`: mangle the name and test whether the
entry object exists on the host. -/
def exists_by_name (fs : EncryptedFs) (parent : Nat) (name : String) : Bool :=
  match fs.dirContents parent with
  | some es => es.any (fun e => e.name == mangle name)
  | none => false

/-- `EncryptedFs::find_by_name`, with the source's test order: parent
inode existence, entry existence, parent kind, then open/deserialise the
entry and load the child's inode. -/
def findByName (fs : EncryptedFs) (parent : Nat) (name : String) :
    Except FsError (Option FileAttr) :=
  if ¬ node_exists fs parent then .error .InodeNotFound
  else if ¬ exists_by_name fs parent name then .ok none
  else if ¬ is_dir fs parent then .error .InvalidInodeType
  else
    match fs.dirContents parent with
    | none => .error .IoError
    | some es =>
      match lookupEntry es (mangle name) with
      | none => .error .IoError
      | some (ino, _) =>
        match fs.inodes ino with
        | none => .error .InodeNotFound
        | some a => .ok (some a)

/-- `EncryptedFs::read_dir`: fails with `InvalidInodeType` when
`<data>/contents/<ino>` is not a host directory; otherwise lists the
entry objects, mapping `$.`/`$..` back to `.`/`..`. -/
def readDir (fs : EncryptedFs) (ino : Nat) : Except FsError (List DirEntry) :=
  match fs.dirContents ino with
  | none => .error .InvalidInodeType
  | some es => .ok (es.map (fun e => { e with name := unmangle e.name }))

/-- `EncryptedFs::is_read_handle`. -/
def is_read_handle (fs : EncryptedFs) (fh : Nat) : Bool :=
  (fs.read_handles fh).isSome

/-- `EncryptedFs::is_write_handle`. -/
def is_write_handle (fs : EncryptedFs) (fh : Nat) : Bool :=
  (fs.write_handles fh).isSome

/-! ### Mutating operations -/

/-- `EncryptedFs::write_inode`: truncate + re-encrypt
`<data>/inodes/<attr.ino>`. -/
def write_inode (fs : EncryptedFs) (attr : FileAttr) : EncryptedFs :=
  updInode fs attr.ino attr

/-- `EncryptedFs::allocate_next_file_handle`. -/
def allocateNextFileHandle (fs : EncryptedFs) : Nat × EncryptedFs :=
  (fs.current_file_handle + 1,
   { fs with current_file_handle := fs.current_file_handle + 1 })

/-- `EncryptedFs::create_read_handle`: open the canonical content file,
build a decryptor on it, load the inode, insert `(attr, 0, decryptor)`. -/
def createReadHandle (fs : EncryptedFs) (ino handle : Nat) : FsOutcome Nat :=
  match fs.fileContents (.canonical ino) with
  | none => .err .IoError fs
  | some data =>
    match fs.inodes ino with
    | none => .err .InodeNotFound fs
    | some attr => .ok handle (setRH fs handle ⟨attr, 0, data⟩)

/-- `EncryptedFs::create_write_handle`: open the canonical content file,
build an encryptor on it, load the inode, insert
`(attr, path, 0, encryptor)`. -/
def createWriteHandle (fs : EncryptedFs) (ino handle : Nat) : FsOutcome Nat :=
  match fs.fileContents (.canonical ino) with
  | none => .err .IoError fs
  | some _ =>
    match fs.inodes ino with
    | none => .err .InodeNotFound fs
    | some attr => .ok handle (setWH fs handle ⟨attr, .canonical ino, 0⟩)

/-- `EncryptedFs::open`: reject directories, allocate a handle, then
install the requested streams. -/
def fsOpen (fs : EncryptedFs) (ino : Nat) (read write : Bool) : FsOutcome Nat :=
  if is_dir fs ino then .err .InvalidInodeType fs
  else
    let (handle, fs1) := allocateNextFileHandle fs
    match (if read then createReadHandle fs1 ino handle else .ok handle fs1) with
    | .err e s => .err e s
    | .panicked => .panicked
    | .hangs => .hangs
    | .ok _ fs2 =>
      match (if write then createWriteHandle fs2 ino handle else .ok handle fs2) with
      | .err e s => .err e s
      | .panicked => .panicked
      | .hangs => .hangs
      | .ok _ fs3 => .ok handle fs3

/-- `EncryptedFs::insert_directory_entry`: create (truncating) the entry
object for `entry.name` (separators stripped) under
`<data>/contents/<parent>/`.  Creating a file under a missing host
directory is an I/O failure. -/
def insertDirectoryEntry (fs : EncryptedFs) (parent : Nat) (entry : DirEntry) :
    FsOutcome Unit :=
  match fs.dirContents parent with
  | none => .err .IoError fs
  | some es =>
    .ok () (setDir fs parent (insertEntry es { entry with name := stripSeparators entry.name }))

/-- `EncryptedFs::release_handle`: drop the read handle (persisting its
cached attr), then drop the write handle (persisting its cached attr,
finishing the encryptor, and renaming the staging file over the
canonical file when the handle's path ends in `".tmp"`).  The rename is
`fs::rename(..).unwrap()`, hence a panic when the staging file is
missing. -/
def releaseReadPhase (fs : EncryptedFs) (handle : Nat) : EncryptedFs :=
  match fs.read_handles handle with
  | some rh => write_inode (eraseRH fs handle) rh.attr
  | none => fs

def releaseHandle (fs : EncryptedFs) (handle : Nat) : FsOutcome Unit :=
  let fs1 := releaseReadPhase fs handle
  match fs1.write_handles handle with
  | none => .ok () fs1
  | some wh =>
    let fs2 := write_inode (eraseWH fs1 handle) wh.attr
    if wh.path.isTmp then
      match fs2.fileContents wh.path with
      | none => .panicked
      | some t =>
        .ok () (setFile (setFile fs2 wh.path none) (.canonical wh.attr.ino) (some t))
    else .ok () fs2

/-- Overwriting `b` into `c` at byte offset `k`: what a stream-cipher
encryptor whose stream position is `k` does to the underlying file when
it writes `b` (bytes beyond the written range are untouched, the file is
extended as needed). -/
def overwriteAt (c : List Nat) (k : Nat) (b : List Nat) : List Nat :=
  c.take k ++ b ++ c.drop (k + b.length)

/-- The 4096-byte skip/copy loop shared (textually duplicated in the
source) by `read` and `write_all`: starting at stream position
`position`, repeatedly `read_exact` chunks of
`min 4096 (offset - position)` bytes from a stream of `len` available
bytes until `position = offset`.  Returns whether every `read_exact`
succeeded, and the final stream position (the last chunk boundary
reached).  `fuel` bounds the recursion; every caller passes at least
`offset - position + 1`, which is sufficient because each iteration
advances by at least one byte.  The loop is only ever entered with
`position < offset`; the `position ≥ offset` guard and the fuel-0 arm
are unreachable at call sites. -/
def skipLoopF : Nat → Nat → Nat → Nat → Bool × Nat
  | 0, _, position, offset =>
    if position < offset then (false, position) else (true, position)
  | fuel + 1, len, position, offset =>
    if position < offset then
      let rl := min 4096 (offset - position)
      if position + rl ≤ len then
        if position + rl = offset then (true, offset)
        else skipLoopF fuel len (position + rl) offset
      else (false, position)
    else (true, position)

/-- `EncryptedFs::read`.  The handle is looked up with `.unwrap()`
(panic when absent).  When the cursor is past the requested offset a
fresh decryptor is installed via `create_read_handle` (note: on the
`ino` *argument*, with the attr reloaded from disk); then plaintext is
discarded until the cursor reaches `offset`; then the buffer is clamped
to `attr.size - offset` (a `u64` underflow panic when
`offset > attr.size`) and `buf.len()` bytes are decrypted. -/
def read (fs : EncryptedFs) (ino offset bufLen handle now : Nat) :
    FsOutcome (List Nat) :=
  match fs.read_handles handle with
  | none => .panicked
  | some rh =>
    if rh.attr.kind = .Directory then .err .InvalidInodeType fs
    else
      match (if rh.position ≠ offset then
               match (if rh.position > offset then createReadHandle fs ino handle
                      else .ok handle fs : FsOutcome Nat) with
               | .err e s => .err e s
               | .panicked => .panicked
               | .hangs => .hangs
               | .ok _ fs1 =>
                 if offset > 0 then
                   match fs1.read_handles handle with
                   | none => .panicked
                   | some rh1 =>
                     let (okb, newPos) :=
                       skipLoopF (offset + 1) rh1.data.length rh1.position offset
                     if okb then .ok () (setRH fs1 handle { rh1 with position := newPos })
                     else .err .IoError (setRH fs1 handle { rh1 with position := newPos })
                 else .ok () fs1
             else .ok () fs : FsOutcome Unit) with
      | .err e s => .err e s
      | .panicked => .panicked
      | .hangs => .hangs
      | .ok _ fs2 =>
        match fs2.read_handles handle with
        | none => .panicked
        | some rh2 =>
          if offset + bufLen > rh2.attr.size then
            if offset > rh2.attr.size then .panicked
            else readExactInto fs2 handle rh2 (rh2.attr.size - offset) now
          else readExactInto fs2 handle rh2 bufLen now
where
  /-- The final `decryptor.read_exact(&mut buf)` plus cursor advance and
  cached-atime update; fails with an I/O error (`UnexpectedEof`) when
  fewer than `n` bytes remain. -/
  readExactInto (fs2 : EncryptedFs) (handle : Nat) (rh2 : ReadHandleEntry)
      (n now : Nat) : FsOutcome (List Nat) :=
    if rh2.position + n ≤ rh2.data.length then
      .ok ((rh2.data.drop rh2.position).take n)
        (setRH fs2 handle
          { rh2 with position := rh2.position + n,
                     attr := { rh2.attr with atime := now } })
    else .err .IoError fs2

/-- The rebuild path of `EncryptedFs::write_all` (taken when the
handle's cursor is not at `offset`): open the canonical file, open (or
create) the staging file `<ino>.<handle>.tmp`, copy the first `offset`
plaintext bytes of the canonical file through a fresh encryptor into the
staging file, and swap the handle's encryptor and path
(`replace_encryptor`).  With `offset = 0` the source's copy loop never
makes progress and never breaks: the call diverges. -/
def writeAllRebuild (fs : EncryptedFs) (wh : WriteHandleEntry) (handle offset : Nat) :
    FsOutcome Unit :=
  match fs.fileContents (.canonical wh.attr.ino) with
  | none => .err .IoError fs
  | some canon =>
    let tmpPath : WPath := .tmp wh.attr.ino handle
    let tmp0 := (fs.fileContents tmpPath).getD []
    if offset = 0 then .hangs
    else
      let (okb, k) := skipLoopF (offset + 1) canon.length 0 offset
      let fs1 := setFile fs tmpPath (some (canon.take k ++ tmp0.drop k))
      if okb then .ok () (setWH fs1 handle { wh with path := tmpPath })
      else .err .IoError fs1

/-- `EncryptedFs::write_all`.  The handle is looked up with `.unwrap()`
(panic when absent).  After a possible rebuild, `buf` is written through
the encryptor at stream position `offset`, the cursor is set to
`offset + buf.len()`, and the cached attr gets
`size = offset + buf.len()` and fresh m/ctime.  The encryptor writes to
an open descriptor, so a vanished map entry is treated as an empty
file. -/
def writeAll (fs : EncryptedFs) (_ino offset : Nat) (buf : List Nat)
    (handle now : Nat) : FsOutcome Unit :=
  match fs.write_handles handle with
  | none => .panicked
  | some wh =>
    if wh.attr.kind = .Directory then .err .InvalidInodeType fs
    else
      match (if wh.position ≠ offset then writeAllRebuild fs wh handle offset
             else .ok () fs) with
      | .err e s => .err e s
      | .panicked => .panicked
      | .hangs => .hangs
      | .ok _ fs1 =>
        match fs1.write_handles handle with
        | none => .panicked
        | some wh1 =>
          let t := (fs1.fileContents wh1.path).getD []
          let fs2 := setFile fs1 wh1.path (some (overwriteAt t offset buf))
          .ok () (setWH fs2 handle
            { wh1 with
              position := offset + buf.length,
              attr := { wh1.attr with
                        size := offset + buf.length, mtime := now, ctime := now } })

/-- `EncryptedFs::create_nod`.  `newIno` is the value produced by
`generate_next_inode` (a fresh random inode, `> ROOT_INODE` and not yet
present); `now` is the current time. -/
def createNod (fs : EncryptedFs) (parent : Nat) (name : String) (attr0 : FileAttr)
    (read write : Bool) (newIno now : Nat) : FsOutcome (Nat × FileAttr) :=
  if ¬ node_exists fs parent then .err .InodeNotFound fs
  else
    match findByName fs parent name with
    | .error e => .err e fs
    | .ok (some _) => .err .AlreadyExists fs
    | .ok none =>
      let attr := { attr0 with ino := newIno }
      let fs1 := write_inode fs attr
      match (match attr.kind with
             | .RegularFile => .ok () (setFile fs1 (.canonical newIno) (some []))
             | .Directory =>
               let fs2 := setDir fs1 newIno []
               match insertDirectoryEntry fs2 newIno ⟨"$.", newIno, .Directory⟩ with
               | .err e s => .err e s
               | .panicked => .panicked
               | .hangs => .hangs
               | .ok _ fs3 => insertDirectoryEntry fs3 newIno ⟨"$..", parent, .Directory⟩
             | _ => .err .InvalidInodeType fs1 : FsOutcome Unit) with
      | .err e s => .err e s
      | .panicked => .panicked
      | .hangs => .hangs
      | .ok _ fs4 =>
        match insertDirectoryEntry fs4 parent ⟨name, newIno, attr.kind⟩ with
        | .err e s => .err e s
        | .panicked => .panicked
        | .hangs => .hangs
        | .ok _ fs5 =>
          match getInode fs5 parent with
          | none => .err .InodeNotFound fs5
          | some pa =>
            let fs6 := write_inode fs5 { pa with mtime := now, ctime := now }
            if attr.kind = .RegularFile then
              match fsOpen fs6 newIno read write with
              | .err e s => .err e s
              | .panicked => .panicked
              | .hangs => .hangs
              | .ok handle fs7 => .ok (handle, attr) fs7
            else
              let (handle, fs7) := allocateNextFileHandle fs6
              .ok (handle, attr) fs7

/-- `EncryptedFs::remove_dir`: kind checks, the take-3 emptiness check
(`NotEmpty` when more than two entries), then removal of the inode file,
the contents directory, and the parent's entry object (by the *raw*
name), and a parent m/ctime bump. -/
def removeDir (fs : EncryptedFs) (parent : Nat) (name : String) (now : Nat) :
    FsOutcome Unit :=
  if ¬ is_dir fs parent then .err .InvalidInodeType fs
  else if ¬ exists_by_name fs parent name then .err (.NotFound "name not found") fs
  else
    match findByName fs parent name with
    | .error e => .err e fs
    | .ok none => .err (.NotFound "name not found") fs
    | .ok (some attr) =>
      if attr.kind ≠ .Directory then .err .InvalidInodeType fs
      else
        match readDir fs attr.ino with
        | .error e => .err e fs
        | .ok entries =>
          if min entries.length 3 > 2 then .err .NotEmpty fs
          else
            let fs1 := eraseDir (eraseInode fs attr.ino) attr.ino
            match fs1.dirContents parent with
            | none => .err .IoError fs1
            | some pes =>
              if pes.any (fun e => e.name == name) then
                let fs2 := setDir fs1 parent (pes.filter (fun e => ¬ e.name == name))
                match getInode fs2 parent with
                | none => .err .InodeNotFound fs2
                | some pa => .ok () (write_inode fs2 { pa with mtime := now, ctime := now })
              else .err .IoError fs1

/-! ### Fixture states for witnesses and counterexamples -/

/-- The root directory attr created by `ensure_root_exists`. -/
def rootAttr : FileAttr :=
  ⟨1, 0, 0, 0, 0, 0, 0, .Directory, 0o755, 2, 0, 0, 0, 0, 0⟩

/-- A freshly bootstrapped store: root inode 1 with its `$.` entry, no
open handles. -/
def fsEmpty : EncryptedFs where
  inodes := fun i => if i = 1 then some rootAttr else none
  fileContents := fun _ => none
  dirContents := fun i => if i = 1 then some [⟨"$.", 1, .Directory⟩] else none
  write_handles := fun _ => none
  read_handles := fun _ => none
  current_file_handle := 0

/-- Attr of a regular file of size 5 at inode 2. -/
def attrFile2 : FileAttr :=
  ⟨2, 5, 0, 0, 0, 0, 0, .RegularFile, 0o644, 1, 0, 0, 0, 0, 0⟩

/-- A store holding the regular file `f` (inode 2, contents
`[1,2,3,4,5]`) with an open write handle 1 positioned at 0. -/
def fsW2 : EncryptedFs where
  inodes := fun i =>
    if i = 2 then some attrFile2 else if i = 1 then some rootAttr else none
  fileContents := fun p => if p = .canonical 2 then some [1, 2, 3, 4, 5] else none
  dirContents := fun i =>
    if i = 1 then some [⟨"$.", 1, .Directory⟩, ⟨"f", 2, .RegularFile⟩] else none
  write_handles := fun k => if k = 1 then some ⟨attrFile2, .canonical 2, 0⟩ else none
  read_handles := fun _ => none
  current_file_handle := 1

/-! ### C10: releasing an unknown handle -/

/-- C10: for every handle value present in neither the read-handle table
nor the write-handle table, `release_handle` returns `Ok(())` and leaves
the handle tables and every on-disk object unchanged (the state is
untouched). -/
theorem releaseHandle_unknown_noop (fs : EncryptedFs) (handle : Nat)
    (hr : fs.read_handles handle = none) (hw : fs.write_handles handle = none) :
    releaseHandle fs handle = .ok () fs := by
  simp [releaseHandle, releaseReadPhase, hr, hw]

/-- Witness for C10 at a concrete store and handle. -/
theorem releaseHandle_unknown_noop_witness :
    fsEmpty.read_handles 5 = none ∧ fsEmpty.write_handles 5 = none ∧
    releaseHandle fsEmpty 5 = .ok () fsEmpty :=
  ⟨rfl, rfl, releaseHandle_unknown_noop fsEmpty 5 rfl rfl⟩

/-! ### C7: reading through an unknown handle -/

/-- C7 (amended): `read` with a handle absent from the read-handle table
panics (the `unwrap()` on the missing handle-table entry fails); it does
not return an error value — `FsError` has no `InvalidHandle` variant at
all. -/
theorem read_unknown_handle_panics (fs : EncryptedFs)
    (ino offset bufLen handle now : Nat)
    (h : fs.read_handles handle = none) :
    read fs ino offset bufLen handle now = .panicked := by
  simp [read, h]

/-- Witness for C7 (amended) at a concrete store and handle. -/
theorem read_unknown_handle_panics_witness :
    fsEmpty.read_handles 7 = none ∧ read fsEmpty 1 0 1 7 0 = .panicked :=
  ⟨rfl, read_unknown_handle_panics fsEmpty 1 0 1 7 0 rfl⟩

/-- Counterexample for C7 as stated: at a concrete store, `read` through
a handle in neither table panics and does not return an error value (of
any kind, so in particular not `InvalidHandle`, which does not exist in
`FsError`). -/
theorem read_unknown_handle_cx :
    read fsEmpty 1 0 1 7 0 = .panicked ∧
    (∀ e s, read fsEmpty 1 0 1 7 0 ≠ .err e s) ∧
    (∀ bs s, read fsEmpty 1 0 1 7 0 ≠ .ok bs s) := by
  have hbase : read fsEmpty 1 0 1 7 0 = .panicked := rfl
  refine ⟨hbase, ?_, ?_⟩
  · intro e s hc; rw [hbase] at hc; exact Outcome.noConfusion hc
  · intro bs s hc; rw [hbase] at hc; exact Outcome.noConfusion hc

/-! ### C2: write_all sets size and cursor -/

/-- Inversion of a successful `write_all`: whatever path was taken, the
handle entry afterwards has `attr.size` and `position` equal to
`offset + buf.len()`. -/
theorem writeAll_ok_fields {fs fs1 : EncryptedFs} {ino offset : Nat}
    {buf : List Nat} {handle now : Nat}
    (hok : writeAll fs ino offset buf handle now = .ok () fs1) :
    ∃ wh1 : WriteHandleEntry, fs1.write_handles handle = some wh1 ∧
      wh1.attr.size = offset + buf.length ∧
      wh1.position = offset + buf.length := by
  unfold writeAll at hok
  split at hok
  · exact absurd hok (by simp)
  · split at hok
    · exact absurd hok (by simp)
    · split at hok
      · exact absurd hok (by simp)
      · exact absurd hok (by simp)
      · exact absurd hok (by simp)
      · split at hok
        · exact absurd hok (by simp)
        · rename_i wh1 heq
          injection hok with _ hs
          subst hs
          exact ⟨{ attr := { wh1.attr with size := offset + buf.length, mtime := now, ctime := now }, path := wh1.path, position := offset + buf.length }, by simp [setWH], rfl, rfl⟩

/-- C2: every successful `write_all(offset, buf)` on a regular-file
write handle sets the cached attr size to exactly `offset + buf.len()`
(overwrite-to-length, even when the previous size was larger) and
advances the handle's cursor to `offset + buf.len()`. -/
theorem writeAll_sets_size_and_cursor (fs fs1 : EncryptedFs) (ino offset : Nat)
    (buf : List Nat) (handle now : Nat) (wh : WriteHandleEntry)
    (_hwh : fs.write_handles handle = some wh)
    (_hkind : wh.attr.kind = .RegularFile)
    (hok : writeAll fs ino offset buf handle now = .ok () fs1) :
    ∃ wh1 : WriteHandleEntry, fs1.write_handles handle = some wh1 ∧
      wh1.attr.size = offset + buf.length ∧
      wh1.position = offset + buf.length :=
  writeAll_ok_fields hok

/-- The state after the witness write for C2 (a 1-byte write at offset 0
over a file whose previous size is 5). -/
def fsW2res : EncryptedFs :=
  match writeAll fsW2 2 0 [9] 1 7 with
  | .ok _ s => s
  | _ => fsW2

/-- Witness for C2: at a concrete store, the previous size 5 shrinks to
`0 + 1 = 1` and the cursor lands at 1. -/
theorem writeAll_sets_size_and_cursor_witness :
    fsW2.write_handles 1 = some ⟨attrFile2, .canonical 2, 0⟩ ∧
    writeAll fsW2 2 0 [9] 1 7 = .ok () fsW2res ∧
    ∃ wh1 : WriteHandleEntry, fsW2res.write_handles 1 = some wh1 ∧
      wh1.attr.size = 0 + [9].length ∧ wh1.position = 0 + [9].length :=
  ⟨rfl, rfl,
   writeAll_sets_size_and_cursor fsW2 fsW2res 2 0 [9] 1 7
     ⟨attrFile2, .canonical 2, 0⟩ rfl rfl rfl⟩

/-! ### C9: create_nod for directories registers no handle -/

/-- Handle-counter invariant maintained by the engine: handles are
handed out by the monotone `allocate_next_file_handle`, so every key of
either handle table is at most the current counter. -/
def handleInv (fs : EncryptedFs) : Prop :=
  ∀ k, fs.current_file_handle < k →
    fs.read_handles k = none ∧ fs.write_handles k = none

/-- A successful `insert_directory_entry` only rewrites the parent's
directory contents. -/
theorem insertDirectoryEntry_ok_frame {fs fs' : EncryptedFs} {parent : Nat}
    {e : DirEntry} {u : Unit}
    (h : insertDirectoryEntry fs parent e = .ok u fs') :
    fs'.read_handles = fs.read_handles ∧ fs'.write_handles = fs.write_handles ∧
    fs'.current_file_handle = fs.current_file_handle := by
  unfold insertDirectoryEntry at h
  split at h
  · exact absurd h (by simp)
  · injection h with _ hs
    subst hs
    exact ⟨rfl, rfl, rfl⟩

/-- C9: a successful `create_nod` of a Directory returns a handle (from
`allocate_next_file_handle`) that is present in neither the read-handle
table nor the write-handle table, regardless of the `read` and `write`
flags. -/
theorem createNod_dir_handle_unregistered (fs fs' : EncryptedFs)
    (parent : Nat) (name : String) (attr0 : FileAttr) (r w : Bool)
    (newIno now hdl : Nat) (a : FileAttr)
    (hinv : handleInv fs)
    (hkind : attr0.kind = .Directory)
    (hok : createNod fs parent name attr0 r w newIno now = .ok (hdl, a) fs') :
    is_read_handle fs' hdl = false ∧ is_write_handle fs' hdl = false := by
  unfold createNod at hok
  split at hok
  · exact absurd hok (by simp)
  · split at hok
    · exact absurd hok (by simp)
    · exact absurd hok (by simp)
    · rw [show ({ attr0 with ino := newIno } : FileAttr).kind = attr0.kind from rfl,
          hkind] at hok
      dsimp only [] at hok
      split at hok
      · exact absurd hok (by simp)
      · exact absurd hok (by simp)
      · exact absurd hok (by simp)
      · rename_i fs4 heq4
        split at hok
        · exact absurd hok (by simp)
        · exact absurd hok (by simp)
        · exact absurd hok (by simp)
        · rename_i fs5 heq5
          split at hok
          · exact absurd hok (by simp)
          · rename_i pa hpa
            rw [if_neg (fun hcontra => FileType.noConfusion hcontra)] at hok
            unfold allocateNextFileHandle at hok
            dsimp only [] at hok
            injection hok with hpair hs
            injection hpair with hh ha
            subst hs
            subst hh
            -- the two `$.`/`$..` inserts hidden inside heq4
            have h4 :
                fs4.read_handles = fs.read_handles ∧
                fs4.write_handles = fs.write_handles ∧
                fs4.current_file_handle = fs.current_file_handle := by
              split at heq4
              · exact absurd heq4 (by simp)
              · exact absurd heq4 (by simp)
              · exact absurd heq4 (by simp)
              · rename_i fs3 heq3
                have t3 := insertDirectoryEntry_ok_frame heq3
                have t4 := insertDirectoryEntry_ok_frame heq4
                exact ⟨t4.1.trans t3.1, t4.2.1.trans t3.2.1, t4.2.2.trans t3.2.2⟩
            have t5 := insertDirectoryEntry_ok_frame heq5
            have hr : fs5.read_handles = fs.read_handles := t5.1.trans h4.1
            have hw : fs5.write_handles = fs.write_handles := t5.2.1.trans h4.2.1
            have hc : fs5.current_file_handle = fs.current_file_handle :=
              t5.2.2.trans h4.2.2
            have hfresh := hinv (fs.current_file_handle + 1) (Nat.lt_succ_self _)
            constructor
            · show (fs5.read_handles (fs5.current_file_handle + 1)).isSome = false
              rw [hr, hc, hfresh.1]
              rfl
            · show (fs5.write_handles (fs5.current_file_handle + 1)).isSome = false
              rw [hw, hc, hfresh.2]
              rfl

/-- Template attr passed to `create_nod` for a new directory (the engine
overwrites `ino` itself). -/
def attrDir0 : FileAttr :=
  ⟨0, 0, 0, 0, 0, 0, 0, .Directory, 0o755, 2, 0, 0, 0, 0, 0⟩

/-- The state after the witness `create_nod` for C9. -/
def fsC9res : EncryptedFs :=
  match createNod fsEmpty 1 "d" attrDir0 true true 2 7 with
  | .ok _ s => s
  | _ => fsEmpty

/-- Witness for C9: creating directory `d` under the root with
`read = write = true` yields handle 1, which is in neither table. -/
theorem createNod_dir_handle_unregistered_witness :
    handleInv fsEmpty ∧
    createNod fsEmpty 1 "d" attrDir0 true true 2 7 =
      .ok (1, { attrDir0 with ino := 2 }) fsC9res ∧
    (is_read_handle fsC9res 1 = false ∧ is_write_handle fsC9res 1 = false) := by
  have hinv : handleInv fsEmpty := fun k _ => ⟨rfl, rfl⟩
  have hok : createNod fsEmpty 1 "d" attrDir0 true true 2 7 =
      .ok (1, { attrDir0 with ino := 2 }) fsC9res := rfl
  exact ⟨hinv, hok,
    createNod_dir_handle_unregistered fsEmpty fsC9res 1 "d" attrDir0 true true
      2 7 1 { attrDir0 with ino := 2 } hinv rfl hok⟩

/-! ### C8: remove_dir and the emptiness check -/

/-- C8: on a well-formed directory (its `$.` and `$..` links present,
host entry names distinct), `remove_dir` fails with `NotEmpty` and
changes nothing when any entry other than the two links exists, and on a
directory holding only the links it removes the inode file, the contents
directory, and the parent's entry. -/
theorem removeDir_empty_check (fs : EncryptedFs) (parent dino now : Nat)
    (name : String) (k0 : FileType) (pattr dattr : FileAttr)
    (pes des : List DirEntry)
    (hpattr : fs.inodes parent = some pattr)
    (hpkind : pattr.kind = .Directory)
    (hpino : pattr.ino = parent)
    (hname : name ≠ "." ∧ name ≠ "..")
    (hpes : fs.dirContents parent = some pes)
    (hlook : lookupEntry pes name = some (dino, k0))
    (hdattr : fs.inodes dino = some dattr)
    (hdkind : dattr.kind = .Directory)
    (hdino : dattr.ino = dino)
    (hdes : fs.dirContents dino = some des)
    (hnodup : (des.map (fun e => e.name)).Nodup)
    (hdp : dino ≠ parent) :
    (("$." ∈ des.map (fun e => e.name) ∧ "$.." ∈ des.map (fun e => e.name) ∧
      ∃ e ∈ des, e.name ≠ "$." ∧ e.name ≠ "$..") →
      removeDir fs parent name now = .err .NotEmpty fs) ∧
    ((∀ e ∈ des, e.name = "$." ∨ e.name = "$..") →
      ∃ fs', removeDir fs parent name now = .ok () fs' ∧
        fs'.inodes dino = none ∧ fs'.dirContents dino = none ∧
        ∃ pes', fs'.dirContents parent = some pes' ∧
          lookupEntry pes' name = none) := by
  have hmangle : mangle name = name := by
    unfold mangle
    rw [if_neg hname.1, if_neg hname.2]
  have hlook' := hlook
  unfold lookupEntry at hlook'
  obtain ⟨e0, hfind, hpair⟩ := Option.map_eq_some'.mp hlook'
  have hino : e0.ino = dino := congrArg Prod.fst hpair
  have hp0 := @List.find?_some DirEntry (fun e => e.name == name) e0 pes hfind
  have hany : pes.any (fun e => e.name == name) = true :=
    List.any_eq_true.mpr ⟨e0, List.mem_of_find?_eq_some hfind, hp0⟩
  have hdp' : parent ≠ dino := Ne.symm hdp
  have his : is_dir fs parent = true := by
    simp [is_dir, hpattr, hpkind]
  have hexists : exists_by_name fs parent name = true := by
    simp only [exists_by_name, hpes, hmangle]
    exact hany
  have hfbn : findByName fs parent name = .ok (some dattr) := by
    unfold findByName
    rw [if_neg (by simp [node_exists, hpattr]), if_neg (by simp [hexists]),
        if_neg (by simp [his])]
    simp only [hpes, hmangle, hlook, hdattr]
  have hreadDir : readDir fs dino =
      .ok (des.map (fun e => { e with name := unmangle e.name })) := by
    simp [readDir, hdes]
  constructor
  · rintro ⟨hm1, hm2, e1, he1, hn1, hn2⟩
    have hsub : (["$.", "$..", e1.name] : List String) ⊆
        des.map (fun e => e.name) := by
      intro x hx
      rcases List.mem_cons.mp hx with rfl | hx
      · exact hm1
      · rcases List.mem_cons.mp hx with rfl | hx
        · exact hm2
        · rcases List.mem_singleton.mp hx with rfl
          exact List.mem_map_of_mem _ he1
    have hnd : (["$.", "$..", e1.name] : List String).Nodup := by
      refine List.nodup_cons.mpr ⟨?_, List.nodup_cons.mpr ⟨?_, List.nodup_singleton _⟩⟩
      · intro hx
        rcases List.mem_cons.mp hx with hx | hx
        · exact absurd hx (by decide)
        · exact hn1 (List.mem_singleton.mp hx).symm
      · intro hx
        exact hn2 (List.mem_singleton.mp hx).symm
    have hge3 : 3 ≤ des.length := by
      have := (List.subperm_of_subset hnd hsub).length_le
      simpa using this
    unfold removeDir
    rw [if_neg (by simp [his]), if_neg (by simp [hexists])]
    simp only [hfbn]
    rw [if_neg (by simp [hdkind])]
    rw [hdino]
    simp only [hreadDir]
    rw [if_pos (by simp only [List.length_map]; omega)]
  · intro honly
    have hle2 : des.length ≤ 2 := by
      have hsub : des.map (fun e => e.name) ⊆ (["$.", "$.."] : List String) := by
        intro x hx
        obtain ⟨e, he, rfl⟩ := List.mem_map.mp hx
        rcases honly e he with h | h <;> simp [h]
      have := (List.subperm_of_subset hnodup hsub).length_le
      simpa using this
    unfold removeDir
    rw [if_neg (by simp [his]), if_neg (by simp [hexists])]
    simp only [hfbn]
    rw [if_neg (by simp [hdkind])]
    rw [hdino]
    simp only [hreadDir]
    rw [if_neg (by simp only [List.length_map]; omega)]
    simp only [show (eraseDir (eraseInode fs dino) dino).dirContents parent = some pes by
          simp [eraseDir, eraseInode, hdp', hpes]]
    rw [if_pos hany]
    simp only [show getInode (setDir (eraseDir (eraseInode fs dino) dino) parent
          (pes.filter (fun e => ¬ e.name == name))) parent = some pattr by
          simp [getInode, setDir, eraseDir, eraseInode, hdp', hpattr]]
    refine ⟨_, rfl, ?_, ?_, ?_⟩
    · simp [write_inode, updInode, setDir, eraseDir, eraseInode, hpino, hdp]
    · simp [write_inode, updInode, setDir, eraseDir, eraseInode, hdp]
    · refine ⟨pes.filter (fun e => ¬ e.name == name), ?_, ?_⟩
      · simp [write_inode, updInode, setDir, eraseDir, eraseInode]
      · unfold lookupEntry
        rw [List.find?_eq_none.mpr ?_]
        · rfl
        · intro e he
          have := List.of_mem_filter he
          simpa using this

/-- Attr of the subdirectory `d` (inode 2) in the C8 witness store. -/
def attrDir2 : FileAttr :=
  ⟨2, 0, 0, 0, 0, 0, 0, .Directory, 0o755, 2, 0, 0, 0, 0, 0⟩

/-- Attr of the file `x` (inode 3) in the C8 witness store. -/
def attrFile3 : FileAttr :=
  ⟨3, 0, 0, 0, 0, 0, 0, .RegularFile, 0o644, 1, 0, 0, 0, 0, 0⟩

/-- Contents of directory `d` in the C8 witness store: both links plus
the file `x`. -/
def desC8 : List DirEntry :=
  [⟨"$.", 2, .Directory⟩, ⟨"$..", 1, .Directory⟩, ⟨"x", 3, .RegularFile⟩]

/-- Root entries in the C8 witness store. -/
def pesC8 : List DirEntry :=
  [⟨"$.", 1, .Directory⟩, ⟨"d", 2, .Directory⟩]

/-- C8 witness store: `/d/x` exists, so `d` is non-empty. -/
def fsC8 : EncryptedFs where
  inodes := fun i =>
    if i = 1 then some rootAttr else if i = 2 then some attrDir2
    else if i = 3 then some attrFile3 else none
  fileContents := fun p => if p = .canonical 3 then some [] else none
  dirContents := fun i =>
    if i = 1 then some pesC8 else if i = 2 then some desC8 else none
  write_handles := fun _ => none
  read_handles := fun _ => none
  current_file_handle := 0

/-- Witness for C8 at a concrete store (the `NotEmpty` branch fires for
`remove_dir(1, "d")` because `d` holds the extra entry `x`). -/
theorem removeDir_empty_check_witness :
    (("$." ∈ desC8.map (fun e => e.name) ∧ "$.." ∈ desC8.map (fun e => e.name) ∧
      ∃ e ∈ desC8, e.name ≠ "$." ∧ e.name ≠ "$..") →
      removeDir fsC8 1 "d" 9 = .err .NotEmpty fsC8) ∧
    ((∀ e ∈ desC8, e.name = "$." ∨ e.name = "$..") →
      ∃ fs', removeDir fsC8 1 "d" 9 = .ok () fs' ∧
        fs'.inodes 2 = none ∧ fs'.dirContents 2 = none ∧
        ∃ pes', fs'.dirContents 1 = some pes' ∧
          lookupEntry pes' "d" = none) :=
  removeDir_empty_check fsC8 1 2 9 "d" .Directory rootAttr attrDir2 pesC8 desC8
    rfl rfl rfl ⟨by decide, by decide⟩ rfl rfl rfl rfl rfl rfl
    (by decide) (by decide)

/-! ### C3: reads are clamped to `attr.size`; reads past EOF -/

/-- Success of the skip/copy loop: when at least `offset` bytes are
available and the cursor starts at or before `offset`, every chunk read
succeeds and the cursor lands exactly on `offset`. -/
theorem skipLoopF_ok (len offset : Nat) (hlen : offset ≤ len) :
    ∀ fuel position, position ≤ offset → offset - position ≤ fuel →
      skipLoopF fuel len position offset = (true, offset) := by
  intro fuel
  induction fuel with
  | zero =>
    intro position hpo hf
    have : position = offset := by omega
    subst this
    unfold skipLoopF
    rw [if_neg (by omega)]
  | succ n ih =>
    intro position hpo hf
    unfold skipLoopF
    rcases Nat.eq_or_lt_of_le hpo with rfl | hlt
    · rw [if_neg (by omega)]
    · rw [if_pos hlt]
      have hrl : 0 < min 4096 (offset - position) := by omega
      rw [if_pos (by omega)]
      by_cases hdone : position + min 4096 (offset - position) = offset
      · rw [if_pos hdone]
      · rw [if_neg hdone]
        exact ih (position + min 4096 (offset - position)) (by omega) (by omega)

/-- Failure of the skip/copy loop: when fewer than `offset` bytes are
available the loop can never succeed (its result flag is `false`). -/
theorem skipLoopF_fail (len offset : Nat) (hlen : len < offset) :
    ∀ fuel position, (skipLoopF fuel len position offset).1 = false ∨
      (skipLoopF fuel len position offset).2 = position ∧ ¬ position < offset := by
  intro fuel
  induction fuel with
  | zero =>
    intro position
    unfold skipLoopF
    by_cases hlt : position < offset
    · rw [if_pos hlt]
      exact .inl rfl
    · rw [if_neg hlt]
      exact .inr ⟨rfl, hlt⟩
  | succ n ih =>
    intro position
    unfold skipLoopF
    by_cases hlt : position < offset
    · rw [if_pos hlt]
      by_cases hle : position + min 4096 (offset - position) ≤ len
      · rw [if_pos hle]
        rw [if_neg (by omega)]
        rcases ih (position + min 4096 (offset - position)) with h | ⟨_, hnlt⟩
        · exact .inl h
        · exact absurd (by omega : position + min 4096 (offset - position) < offset) hnlt
      · rw [if_neg hle]
        exact .inl rfl
    · rw [if_neg hlt]
      exact .inr ⟨rfl, hlt⟩

/-- C3 (amended): (i) any successful `read` returns at most
`attr.size - offset` bytes (never bytes past `attr.size`); (ii) a read
whose cursor must be advanced exactly *to* end-of-file
(`offset = attr.size`) returns a 0-byte short read; (iii) a read whose
cursor must be advanced strictly *past* the end of the decryptor's data
fails with an I/O error (`read_exact` hits EOF) instead of returning a
short read. -/
theorem read_clamp_amended (fs : EncryptedFs) (ino offset bufLen handle now : Nat) :
    (∀ bytes fs', read fs ino offset bufLen handle now = .ok bytes fs' →
      ∃ rh', fs'.read_handles handle = some rh' ∧
        offset + bytes.length ≤ rh'.attr.size) ∧
    (∀ rh : ReadHandleEntry, fs.read_handles handle = some rh →
      rh.attr.kind = .RegularFile → rh.position ≤ offset →
      offset ≤ rh.data.length → offset = rh.attr.size →
      ∃ fs', read fs ino offset bufLen handle now = .ok [] fs') ∧
    (∀ rh : ReadHandleEntry, fs.read_handles handle = some rh →
      rh.attr.kind = .RegularFile → rh.position ≤ rh.data.length →
      rh.data.length < offset →
      ∃ fs', read fs ino offset bufLen handle now = .err .IoError fs') := by
  refine ⟨?_, ?_, ?_⟩
  · -- (i) clamping on any successful read
    intro bytes fs' hok
    unfold read at hok
    split at hok
    · exact absurd hok (by simp)
    · rename_i rh hrh
      split at hok
      · exact absurd hok (by simp)
      · split at hok
        · exact absurd hok (by simp)
        · exact absurd hok (by simp)
        · exact absurd hok (by simp)
        · rename_i u fs2 hpos
          split at hok
          · exact absurd hok (by simp)
          · rename_i rh2 hrh2
            split at hok
            · -- clamped branch: n = attr.size - offset
              rename_i hgt
              split at hok
              · exact absurd hok (by simp)
              · rename_i hnotpast
                unfold read.readExactInto at hok
                split at hok
                · rename_i hle
                  injection hok with hb hs
                  subst hs
                  refine ⟨{ attr := { rh2.attr with atime := now }, position := rh2.position + (rh2.attr.size - offset), data := rh2.data }, by simp [setRH], ?_⟩
                  have hlenb : bytes.length ≤ rh2.attr.size - offset := by
                    rw [← hb]
                    simp [List.length_take]
                  simp only [not_lt] at hnotpast
                  dsimp only
                  omega
                · exact absurd hok (by simp)
            · -- unclamped branch: n = bufLen and offset + bufLen ≤ size
              rename_i hngt
              unfold read.readExactInto at hok
              split at hok
              · rename_i hle
                injection hok with hb hs
                subst hs
                refine ⟨{ attr := { rh2.attr with atime := now }, position := rh2.position + bufLen, data := rh2.data }, by simp [setRH], ?_⟩
                have hlenb : bytes.length ≤ bufLen := by
                  rw [← hb]
                  simp [List.length_take]
                simp only [not_lt] at hngt
                dsimp only
                omega
              · exact absurd hok (by simp)
  · -- (ii) read positioned exactly at EOF: 0-byte short read
    intro rh hrh hkind hpos hlen hsize
    unfold read
    simp only [hrh]
    rw [if_neg (by rw [hkind]; exact fun hc => FileType.noConfusion hc)]
    by_cases hpe : rh.position = offset
    · rw [if_neg (by omega)]
      simp only [hrh]
      by_cases hb : offset + bufLen > rh.attr.size
      · rw [if_pos hb, if_neg (by omega)]
        unfold read.readExactInto
        rw [if_pos (by omega)]
        exact ⟨_, by rw [show rh.attr.size - offset = 0 by omega]; rfl⟩
      · rw [if_neg hb]
        unfold read.readExactInto
        rw [if_pos (by omega)]
        exact ⟨_, by rw [show bufLen = 0 by omega]; rfl⟩
    · rw [if_pos (by omega : rh.position ≠ offset)]
      rw [if_neg (by omega : ¬ rh.position > offset)]
      dsimp only
      rw [if_pos (by omega : offset > 0)]
      simp only [hrh]
      rw [skipLoopF_ok rh.data.length offset hlen (offset + 1) rh.position hpos (by omega)]
      simp only [if_true, setRH_get]
      by_cases hb : offset + bufLen > rh.attr.size
      · rw [if_pos hb, if_neg (by omega)]
        unfold read.readExactInto
        dsimp only
        rw [if_pos (by omega)]
        exact ⟨_, by rw [show rh.attr.size - offset = 0 by omega]; rfl⟩
      · rw [if_neg hb]
        unfold read.readExactInto
        dsimp only
        rw [if_pos (by omega)]
        exact ⟨_, by rw [show bufLen = 0 by omega]; rfl⟩
  · -- (iii) read positioned strictly past EOF: I/O failure
    intro rh hrh hkind hple hlen
    unfold read
    simp only [hrh]
    rw [if_neg (by rw [hkind]; exact fun hc => FileType.noConfusion hc)]
    have hlt : rh.position < offset := by omega
    rw [if_pos (by omega : rh.position ≠ offset)]
    rw [if_neg (by omega : ¬ rh.position > offset)]
    dsimp only
    rw [if_pos (by omega : offset > 0)]
    simp only [hrh]
    have hfail : (skipLoopF (offset + 1) rh.data.length rh.position offset).1 = false := by
      rcases skipLoopF_fail rh.data.length offset hlen (offset + 1) rh.position
        with h | ⟨_, hn⟩
      · exact h
      · exact absurd hlt hn
    rcases hsk : skipLoopF (offset + 1) rh.data.length rh.position offset with ⟨b, p⟩
    rw [hsk] at hfail
    simp only at hfail
    subst hfail
    exact ⟨_, rfl⟩

/-- Attr of the 2-byte file read in the C3 fixtures. -/
def attrC3 : FileAttr :=
  ⟨2, 2, 0, 0, 0, 0, 0, .RegularFile, 0o644, 1, 0, 0, 0, 0, 0⟩

/-- C3 fixture store: inode 2 holds `[10, 11]` (size 2) and read handle
1 is open on it at position 0. -/
def fsC3 : EncryptedFs where
  inodes := fun i =>
    if i = 2 then some attrC3 else if i = 1 then some rootAttr else none
  fileContents := fun p => if p = .canonical 2 then some [10, 11] else none
  dirContents := fun i =>
    if i = 1 then some [⟨"$.", 1, .Directory⟩, ⟨"f", 2, .RegularFile⟩] else none
  write_handles := fun _ => none
  read_handles := fun k => if k = 1 then some ⟨attrC3, 0, [10, 11]⟩ else none
  current_file_handle := 1

/-- Witness for C3 (amended): at the concrete store, a read positioned
exactly at EOF (`offset = attr.size = 2`) returns 0 bytes, and a read
positioned past EOF (`offset = 5 > 2`) fails with an I/O error. -/
theorem read_clamp_amended_witness :
    (∃ fs', read fsC3 2 2 5 1 3 = .ok [] fs') ∧
    (∃ fs', read fsC3 2 5 1 1 3 = .err .IoError fs') := by
  constructor
  · exact (read_clamp_amended fsC3 2 2 5 1 3).2.1 ⟨attrC3, 0, [10, 11]⟩
      rfl rfl (by decide) (by decide) rfl
  · exact (read_clamp_amended fsC3 2 5 1 1 3).2.2 ⟨attrC3, 0, [10, 11]⟩
      rfl rfl (by decide) (by decide)

/-- The state left behind by the failing past-EOF read in the C3
counterexample. -/
def fsC3err : EncryptedFs :=
  match read fsC3 2 5 1 1 3 with
  | .err _ s => s
  | _ => fsC3

/-- Counterexample for C3 as stated: at a concrete store, a read whose
cursor must be advanced past end-of-file (`offset = 5`, file size 2)
fails with an I/O error instead of returning a short read (it returns no
bytes at all). -/
theorem read_past_eof_cx :
    read fsC3 2 5 1 1 3 = .err .IoError fsC3err ∧
    (∀ bs s, read fsC3 2 5 1 1 3 ≠ .ok bs s) := by
  have hbase : read fsC3 2 5 1 1 3 = .err .IoError fsC3err := rfl
  refine ⟨hbase, ?_⟩
  intro bs s hc
  rw [hbase] at hc
  exact Outcome.noConfusion hc

/-! ### C1: write / release / re-open / read round trip -/

theorem overwriteAt_slice (c b : List Nat) (k : Nat) (hk : k ≤ c.length) :
    ((overwriteAt c k b).drop k).take b.length = b := by
  unfold overwriteAt
  rw [List.append_assoc, List.drop_left' (by simp [List.length_take, hk]),
      List.take_left' rfl]

theorem overwriteAt_length (c b : List Nat) (k : Nat) (hk : k ≤ c.length) :
    k + b.length ≤ (overwriteAt c k b).length := by
  unfold overwriteAt
  simp [List.length_take]
  omega

/-- Full success characterisation of `write_all` under the handle
invariants (the encryptor target exists and holds at least `position`
bytes, the handle's path is one of the two engine shapes, the canonical
file exists and is long enough for a rebuild).  The write succeeds and
the target file afterwards holds `buf` at `[offset, offset+len)`. -/
theorem writeAll_ok_spec (fs : EncryptedFs) (offset : Nat) (buf : List Nat)
    (handle now : Nat) (wh : WriteHandleEntry) (t0 c0 : List Nat)
    (hwh : fs.write_handles handle = some wh)
    (hkind : wh.attr.kind = .RegularFile)
    (hpath : wh.path = .canonical wh.attr.ino ∨ wh.path = .tmp wh.attr.ino handle)
    (ht : fs.fileContents wh.path = some t0)
    (hlen : wh.position ≤ t0.length)
    (hcanon : fs.fileContents (.canonical wh.attr.ino) = some c0)
    (hreb : wh.position ≠ offset → 0 < offset ∧ offset ≤ c0.length) :
    ∃ (fs1 : EncryptedFs) (p1 : WPath) (t1 : List Nat),
      writeAll fs wh.attr.ino offset buf handle now = .ok () fs1 ∧
      fs1.write_handles handle =
        some ⟨{ wh.attr with size := offset + buf.length, mtime := now, ctime := now },
              p1, offset + buf.length⟩ ∧
      (p1 = .canonical wh.attr.ino ∨ p1 = .tmp wh.attr.ino handle) ∧
      fs1.fileContents p1 = some t1 ∧
      offset + buf.length ≤ t1.length ∧
      (t1.drop offset).take buf.length = buf ∧
      fs1.read_handles = fs.read_handles ∧
      fs1.inodes = fs.inodes ∧
      fs1.current_file_handle = fs.current_file_handle := by
  unfold writeAll
  simp only [hwh]
  rw [if_neg (by rw [hkind]; exact fun hc => FileType.noConfusion hc)]
  by_cases hpos : wh.position = offset
  · -- no rebuild: the encryptor keeps writing in place at its cursor
    rw [if_neg (by omega)]
    dsimp only
    simp only [hwh, ht, Option.getD_some]
    refine ⟨_, wh.path, overwriteAt t0 offset buf, rfl, ?_, hpath, ?_, ?_, ?_, rfl, rfl, rfl⟩
    · exact setWH_get ..
    · show (setWH (setFile fs wh.path _) handle _).fileContents wh.path = _
      simp [setWH, setFile]
    · exact overwriteAt_length t0 buf offset (by omega)
    · exact overwriteAt_slice t0 buf offset (by omega)
  · -- rebuild into the staging file, then write there
    obtain ⟨hoff, hocl⟩ := hreb hpos
    rw [if_pos hpos]
    unfold writeAllRebuild
    rw [hcanon]
    dsimp only
    rw [if_neg (by omega)]
    rw [skipLoopF_ok c0.length offset hocl (offset + 1) 0 (by omega) (by omega)]
    simp only [if_true, setWH_get]
    rw [show (setWH (setFile fs (.tmp wh.attr.ino handle)
          (some (c0.take offset ++ ((fs.fileContents (.tmp wh.attr.ino handle)).getD []).drop offset)))
          handle { wh with path := .tmp wh.attr.ino handle }).fileContents
          (.tmp wh.attr.ino handle) =
        some (c0.take offset ++ ((fs.fileContents (.tmp wh.attr.ino handle)).getD []).drop offset) by
      simp [setWH, setFile]]
    simp only [Option.getD_some]
    have hlent : offset ≤ (c0.take offset ++
        ((fs.fileContents (.tmp wh.attr.ino handle)).getD []).drop offset).length := by
      simp [List.length_take]
      omega
    refine ⟨_, .tmp wh.attr.ino handle,
      overwriteAt (c0.take offset ++
        ((fs.fileContents (.tmp wh.attr.ino handle)).getD []).drop offset) offset buf,
      rfl, ?_, .inr rfl, ?_, ?_, ?_, rfl, rfl, rfl⟩
    · exact setWH_get ..
    · show (setWH (setFile _ (.tmp wh.attr.ino handle) _) handle _).fileContents
          (.tmp wh.attr.ino handle) = _
      simp [setWH, setFile]
    · exact overwriteAt_length _ buf offset hlent
    · exact overwriteAt_slice _ buf offset hlent

/-- Success characterisation of `release_handle` on a write handle
whose target file exists: the cached attr is persisted, and the target's
bytes end up in the canonical content file (directly when the handle
still writes in place, via the staging rename when the path ends in
`.tmp`). -/
theorem releaseReadPhase_frame (fs : EncryptedFs) (handle : Nat) :
    (releaseReadPhase fs handle).write_handles = fs.write_handles ∧
    (releaseReadPhase fs handle).fileContents = fs.fileContents ∧
    (releaseReadPhase fs handle).current_file_handle = fs.current_file_handle := by
  unfold releaseReadPhase
  rcases fs.read_handles handle with - | rh
  · exact ⟨rfl, rfl, rfl⟩
  · exact ⟨rfl, rfl, rfl⟩

theorem releaseHandle_ok_spec (fs1 : EncryptedFs) (handle : Nat)
    (wh : WriteHandleEntry) (t1 : List Nat)
    (hwh : fs1.write_handles handle = some wh)
    (hpath : wh.path = .canonical wh.attr.ino ∨ wh.path = .tmp wh.attr.ino handle)
    (ht : fs1.fileContents wh.path = some t1) :
    ∃ fs2, releaseHandle fs1 handle = .ok () fs2 ∧
      fs2.inodes wh.attr.ino = some wh.attr ∧
      fs2.fileContents (.canonical wh.attr.ino) = some t1 ∧
      fs2.current_file_handle = fs1.current_file_handle := by
  obtain ⟨hfw, hfc, hfh⟩ := releaseReadPhase_frame fs1 handle
  unfold releaseHandle
  dsimp only
  rw [hfw, hwh]
  dsimp only
  rcases hpath with hpath | hpath
  · rw [hpath]
    dsimp only [WPath.isTmp]
    rw [if_neg (by simp)]
    refine ⟨_, rfl, ?_, ?_, ?_⟩
    · simp [write_inode, updInode, eraseWH]
    · show (write_inode (eraseWH (releaseReadPhase fs1 handle) handle) wh.attr).fileContents
          (.canonical wh.attr.ino) = some t1
      rw [show (write_inode (eraseWH (releaseReadPhase fs1 handle) handle) wh.attr).fileContents
            = (releaseReadPhase fs1 handle).fileContents from rfl, hfc, ← hpath]
      exact ht
    · show (write_inode (eraseWH (releaseReadPhase fs1 handle) handle) wh.attr).current_file_handle
          = fs1.current_file_handle
      rw [show (write_inode (eraseWH (releaseReadPhase fs1 handle) handle) wh.attr).current_file_handle
            = (releaseReadPhase fs1 handle).current_file_handle from rfl, hfh]
  · rw [hpath]
    dsimp only [WPath.isTmp]
    rw [if_pos (by simp)]
    rw [show (write_inode (eraseWH (releaseReadPhase fs1 handle) handle) wh.attr).fileContents
          (.tmp wh.attr.ino handle) = some t1 by
        rw [show (write_inode (eraseWH (releaseReadPhase fs1 handle) handle) wh.attr).fileContents
              = (releaseReadPhase fs1 handle).fileContents from rfl, hfc, ← hpath]
        exact ht]
    refine ⟨_, rfl, ?_, ?_, ?_⟩
    · simp [setFile, write_inode, updInode, eraseWH]
    · simp [setFile]
    · show (setFile _ _ _).current_file_handle = fs1.current_file_handle
      rw [show ∀ fsx p c, (setFile fsx p c).current_file_handle = fsx.current_file_handle
            from fun _ _ _ => rfl]
      rw [show ∀ fsx p c, (setFile fsx p c).current_file_handle = fsx.current_file_handle
            from fun _ _ _ => rfl]
      rw [show (write_inode (eraseWH (releaseReadPhase fs1 handle) handle) wh.attr).current_file_handle
            = (releaseReadPhase fs1 handle).current_file_handle from rfl, hfh]

/-- Success characterisation of `open(ino, read = true, write = false)`
on an existing regular file: a fresh handle is allocated and a read
handle positioned at 0 with a fresh decryptor over the canonical
contents is installed. -/
theorem fsOpen_read_spec (fs2 : EncryptedFs) (ino : Nat) (a : FileAttr)
    (t1 : List Nat)
    (ha : fs2.inodes ino = some a) (hkind : a.kind = .RegularFile)
    (ht : fs2.fileContents (.canonical ino) = some t1) :
    ∃ fs3, fsOpen fs2 ino true false = .ok (fs2.current_file_handle + 1) fs3 ∧
      fs3.read_handles (fs2.current_file_handle + 1) = some ⟨a, 0, t1⟩ ∧
      fs3.current_file_handle = fs2.current_file_handle + 1 := by
  unfold fsOpen
  rw [if_neg (by simp [is_dir, ha, hkind])]
  unfold allocateNextFileHandle
  dsimp only
  rw [if_pos rfl]
  unfold createReadHandle
  dsimp only
  simp only [ht, ha]
  rw [if_neg (by simp : ¬ (false = true))]
  dsimp only
  exact ⟨_, rfl, setRH_get .., rfl⟩

/-- Success characterisation of `read(ino, offset, buf, handle)` through
a fresh read handle whose data holds `P` at `[offset, offset + len)` and
whose cached size is exactly `offset + len`: the read returns exactly
`P`. -/
theorem read_full_spec (fs3 : EncryptedFs) (ino offset handle now : Nat)
    (a : FileAttr) (data P : List Nat)
    (hrh : fs3.read_handles handle = some ⟨a, 0, data⟩)
    (hkind : a.kind = .RegularFile)
    (hsize : a.size = offset + P.length)
    (hdata : offset + P.length ≤ data.length)
    (hslice : (data.drop offset).take P.length = P) :
    ∃ fs4, read fs3 ino offset P.length handle now = .ok P fs4 := by
  unfold read
  simp only [hrh]
  rw [if_neg (by rw [hkind]; exact fun hc => FileType.noConfusion hc)]
  by_cases ho : offset = 0
  · subst ho
    rw [if_neg (by omega)]
    dsimp only
    simp only [hrh]
    rw [if_neg (by omega)]
    unfold read.readExactInto
    rw [if_pos (by dsimp only; omega)]
    exact ⟨_, by dsimp only; rw [hslice]⟩
  · rw [if_pos (by omega)]
    rw [if_neg (by omega)]
    dsimp only
    rw [if_pos (by omega : offset > 0)]
    simp only [hrh]
    rw [skipLoopF_ok data.length offset (by omega) (offset + 1) 0 (by omega) (by omega)]
    simp only [if_true, setRH_get]
    rw [if_neg (by omega)]
    unfold read.readExactInto
    rw [if_pos (by dsimp only; omega)]
    exact ⟨_, by dsimp only; rw [hslice]⟩

/-- C1 (amended): the round trip holds for every plaintext buffer `P`
but not for every offset `O`: performing `write_all(O, P)` on a valid
regular-file write handle, then `release_handle`, then `read(O, |P|)`
through a freshly opened read handle on the same inode succeeds and
returns exactly `P` *provided* that whenever the handle's cursor is not
already at `O` (so the staging-file rebuild runs), `0 < O` and `O` is at
most the canonical file's current plaintext length.  Outside that range
the write itself fails: a rebuild at an offset past the canonical length
errors with an I/O error (the rebuild's `read_exact` hits EOF), and a
rebuild at offset 0 never terminates (the copy loop makes no progress),
so the unconditional universal statement is false. -/
theorem write_release_read_roundtrip (fs : EncryptedFs) (offset : Nat)
    (P : List Nat) (handle now1 now2 : Nat) (wh : WriteHandleEntry)
    (t0 c0 : List Nat)
    (hwh : fs.write_handles handle = some wh)
    (hkind : wh.attr.kind = .RegularFile)
    (hpath : wh.path = .canonical wh.attr.ino ∨ wh.path = .tmp wh.attr.ino handle)
    (ht : fs.fileContents wh.path = some t0)
    (hlen : wh.position ≤ t0.length)
    (hcanon : fs.fileContents (.canonical wh.attr.ino) = some c0)
    (hreb : wh.position ≠ offset → 0 < offset ∧ offset ≤ c0.length) :
    ∃ (fs1 fs2 : EncryptedFs) (h2 : Nat) (fs3 fs4 : EncryptedFs),
      writeAll fs wh.attr.ino offset P handle now1 = .ok () fs1 ∧
      releaseHandle fs1 handle = .ok () fs2 ∧
      fsOpen fs2 wh.attr.ino true false = .ok h2 fs3 ∧
      read fs3 wh.attr.ino offset P.length h2 now2 = .ok P fs4 := by
  obtain ⟨fs1, p1, t1, hw, hwh1, hp1, ht1, hlen1, hslice1, -, -, -⟩ :=
    writeAll_ok_spec fs offset P handle now1 wh t0 c0 hwh hkind hpath ht hlen
      hcanon hreb
  obtain ⟨fs2, hr, hin2, hcan2, -⟩ :=
    releaseHandle_ok_spec fs1 handle
      ⟨{ wh.attr with size := offset + P.length, mtime := now1, ctime := now1 },
       p1, offset + P.length⟩ t1 hwh1 hp1 ht1
  obtain ⟨fs3, hopen, hrh3, -⟩ :=
    fsOpen_read_spec fs2 wh.attr.ino
      { wh.attr with size := offset + P.length, mtime := now1, ctime := now1 }
      t1 hin2 hkind hcan2
  obtain ⟨fs4, hread⟩ :=
    read_full_spec fs3 wh.attr.ino offset (fs2.current_file_handle + 1) now2
      { wh.attr with size := offset + P.length, mtime := now1, ctime := now1 }
      t1 P hrh3 hkind rfl hlen1 hslice1
  exact ⟨fs1, fs2, fs2.current_file_handle + 1, fs3, fs4, hw, hr, hopen, hread⟩

/-- Witness for C1: in the concrete store `fsW2` (file `[1,2,3,4,5]` at
inode 2, write handle 1 at position 0), writing `[7, 8]` at offset 3
(which exercises the staging-file rebuild), releasing, re-opening for
read, and reading 2 bytes at offset 3 returns `[7, 8]`. -/
theorem write_release_read_roundtrip_witness :
    ∃ (fs1 fs2 : EncryptedFs) (h2 : Nat) (fs3 fs4 : EncryptedFs),
      writeAll fsW2 2 3 [7, 8] 1 4 = .ok () fs1 ∧
      releaseHandle fs1 1 = .ok () fs2 ∧
      fsOpen fs2 2 true false = .ok h2 fs3 ∧
      read fs3 2 3 [7, 8].length h2 5 = .ok [7, 8] fs4 :=
  write_release_read_roundtrip fsW2 3 [7, 8] 1 4 5 ⟨attrFile2, .canonical 2, 0⟩
    [1, 2, 3, 4, 5] [1, 2, 3, 4, 5] rfl rfl (.inl rfl) rfl (by decide) rfl
    (fun _ => ⟨by decide, by decide⟩)

/-- The state in which the first counterexample write for C1 fails (the
staging file has been created but holds no bytes, since the skip loop
failed before copying anything). -/
def c1errRes : EncryptedFs :=
  match writeAll fsW2 2 7 [9, 9] 1 4 with
  | .err _ s => s
  | _ => fsW2

/-- `fsW2` with the write handle's cursor moved to 2 (a mispositioned
cursor relative to a write at offset 0). -/
def fsW2p : EncryptedFs where
  inodes := fun i =>
    if i = 2 then some attrFile2 else if i = 1 then some rootAttr else none
  fileContents := fun p => if p = .canonical 2 then some [1, 2, 3, 4, 5] else none
  dirContents := fun i =>
    if i = 1 then some [⟨"$.", 1, .Directory⟩, ⟨"f", 2, .RegularFile⟩] else none
  write_handles := fun k => if k = 1 then some ⟨attrFile2, .canonical 2, 2⟩ else none
  read_handles := fun _ => none
  current_file_handle := 1

/-- Counterexample for C1 as stated: the round trip is not universal in
the offset.  On the concrete store `fsW2` (canonical plaintext
`[1,2,3,4,5]`, write handle 1 at position 0), `write_all` of `[9,9]` at
offset 7 — past the canonical length, where the rebuild's skip loop hits
EOF — fails with an I/O error, so no release/read can ever return the
written bytes; and on `fsW2p` (same file, cursor at 2) `write_all` at
offset 0 diverges (the rebuild copy loop never makes progress). -/
theorem write_release_read_roundtrip_cx :
    writeAll fsW2 2 7 [9, 9] 1 4 = .err .IoError c1errRes ∧
    (∀ fs1, writeAll fsW2 2 7 [9, 9] 1 4 ≠ .ok () fs1) ∧
    writeAll fsW2p 2 0 [9, 9] 1 4 = .hangs := by
  have herr : writeAll fsW2 2 7 [9, 9] 1 4 = .err .IoError c1errRes := rfl
  refine ⟨herr, ?_, rfl⟩
  intro fs1 hc
  rw [herr] at hc
  exact Outcome.noConfusion hc

/-! ## The crypto writer (`src/crypto/writer.rs`) -/

/-- Chunk size of the streaming AEAD writer (`BUF_SIZE`, the production
1 MiB value). -/
def BUF_SIZE : Nat := 1024 * 1024

/-- `u64::MAX`, the `len` passed to the tail-suffix copy on backward
seek. -/
def U64_MAX : Nat := 2 ^ 64 - 1

/-- `std::io::Error` as the writer code distinguishes it: an
`Other`-kind error carrying its message (*UseAfterFinish* is
`"finish called on already finished writer"`), a missing file, and a
short exact copy. -/
inductive IoErr where
  | otherMsg (msg : String)
  | notFound
  | unexpectedEof
deriving DecidableEq, Repr

/-- `RingCryptoWriter<W>` with its sink abstracted to the list of sealed
chunks written so far (each chunk recorded as its plaintext; the
ciphertext and appended tag decrypt/strip back to exactly this).  `out`
is `none` after `finish` has taken the sink. -/
structure RingCryptoWriter where
  out : Option (List (List Nat))
  buf : List Nat
deriving DecidableEq, Repr

/-- `RingCryptoWriter::encrypt_and_write`: seal the buffered chunk with
the next nonce, write `ciphertext || tag` to the sink, clear the buffer.
The `self.out.as_mut().unwrap()` panics if `finish` already ran. -/
def ringEncryptAndWrite (w : RingCryptoWriter) :
    Outcome IoErr RingCryptoWriter Unit :=
  match w.out with
  | none => .panicked
  | some chunks => .ok () ⟨some (chunks ++ [w.buf]), []⟩

/-- `Write::flush` for `RingCryptoWriter`: a no-op unless the buffer is
completely full, in which case the full chunk is sealed and written. -/
def ringFlush (w : RingCryptoWriter) : Outcome IoErr RingCryptoWriter Unit :=
  if w.buf.length = 0 then .ok () w
  else if BUF_SIZE - w.buf.length = 0 then ringEncryptAndWrite w
  else .ok () w

/-- `Write::write` for `RingCryptoWriter`: flush when the buffer has no
room, then copy as many input bytes as fit. -/
def ringWrite (w : RingCryptoWriter) (input : List Nat) :
    Outcome IoErr RingCryptoWriter Nat :=
  match (if BUF_SIZE - w.buf.length = 0 then ringFlush w
         else .ok () w : Outcome IoErr RingCryptoWriter Unit) with
  | .err e s => .err e s
  | .panicked => .panicked
  | .hangs => .hangs
  | .ok _ w1 =>
    let consumed := min (BUF_SIZE - w1.buf.length) input.length
    .ok consumed ⟨w1.out, w1.buf ++ input.take consumed⟩

/-- `CryptoWriter::finish` for `RingCryptoWriter`: a second call is the
*UseAfterFinish* error; otherwise any partial final chunk is sealed and
written, and the underlying sink is taken and returned. -/
def ringFinish (w : RingCryptoWriter) :
    Outcome IoErr RingCryptoWriter (List (List Nat)) :=
  match w.out with
  | none => .err (.otherMsg "finish called on already finished writer") w
  | some _ =>
    match (if w.buf.length > 0 then ringEncryptAndWrite w
           else .ok () w : Outcome IoErr RingCryptoWriter Unit) with
    | .err e s => .err e s
    | .panicked => .panicked
    | .hangs => .hangs
    | .ok _ w1 =>
      match w1.out with
      | none => .panicked
      | some chunks => .ok chunks ⟨none, w1.buf⟩

/-! ### The seekable file writer -/

/-- The host environment of `FileCryptoWriter`: files by path id, the
supply of fresh temp-file names (`NamedTempFile::new_in`), and the log
of `on_file_content_changed` invocations. -/
structure FileWorld where
  files : Nat → Option (List Nat)
  nextTmp : Nat
  callbackLog : List Nat

def setWFile (w : FileWorld) (p : Nat) (c : Option (List Nat)) : FileWorld :=
  { w with files := fun q => if q = p then c else w.files q }

/-- The inner `Box<dyn CryptoWriter<File>>` of `FileCryptoWriter` (a
`RingCryptoWriter` whose sink is the staging `File`): liveness of `out`
plus the buffered plaintext; sealed chunks land in the staging file of
the `FileWorld`. -/
structure InnerWriter where
  alive : Bool
  buf : List Nat
deriving DecidableEq, Repr

/-- `FileCryptoWriter`: canonical file path, opaque per-file nonce seed
(cipher and key do not influence the plaintext-level model), logical
position `pos`, staging path, and the inner writer. -/
structure FileCryptoWriter where
  file : Nat
  nonce_seed : Nat
  pos : Nat
  tmp_file_path : Nat
  writer : InnerWriter
deriving DecidableEq, Repr

/-- `encrypt_and_write` of the inner writer: append the sealed chunk to
the staging file. -/
def innerEncryptAndWrite (world : FileWorld) (tmpPath : Nat) (w : InnerWriter) :
    Outcome IoErr (FileWorld × InnerWriter) Unit :=
  if w.alive then
    .ok () (setWFile world tmpPath
              (some ((world.files tmpPath).getD [] ++ w.buf)), ⟨true, []⟩)
  else .panicked

/-- `flush` of the inner writer: seal only a completely full buffer. -/
def innerFlush (world : FileWorld) (tmpPath : Nat) (w : InnerWriter) :
    Outcome IoErr (FileWorld × InnerWriter) Unit :=
  if w.buf.length = 0 then .ok () (world, w)
  else if BUF_SIZE - w.buf.length = 0 then innerEncryptAndWrite world tmpPath w
  else .ok () (world, w)

/-- `finish` of the inner writer: seal the partial final chunk and take
the sink (second call errors with *UseAfterFinish*). -/
def innerFinish (world : FileWorld) (tmpPath : Nat) (w : InnerWriter) :
    Outcome IoErr (FileWorld × InnerWriter) Unit :=
  if w.alive then
    if w.buf.length > 0 then
      .ok () (setWFile world tmpPath
                (some ((world.files tmpPath).getD [] ++ w.buf)), ⟨false, []⟩)
    else .ok () (world, ⟨false, []⟩)
  else .err (.otherMsg "finish called on already finished writer") (world, w)

/-- Writing a byte sequence to completion through the inner writer (the
`write` loop of the streaming copies): flush when full, take what fits,
repeat.  `fuel` bounds the iteration count; every call passes at least
`input.length + 1`, sufficient because each round consumes at least one
byte. -/
def innerWriteAllF : Nat → FileWorld → Nat → InnerWriter → List Nat →
    Outcome IoErr (FileWorld × InnerWriter) Unit
  | _, world, _, w, [] => .ok () (world, w)
  | 0, _, _, _, _ => .hangs
  | fuel + 1, world, tmpPath, w, input =>
    match (if BUF_SIZE - w.buf.length = 0 then innerFlush world tmpPath w
           else .ok () (world, w) : Outcome IoErr (FileWorld × InnerWriter) Unit) with
    | .err e s => .err e s
    | .panicked => .panicked
    | .hangs => .hangs
    | .ok _ (world1, w1) =>
      let consumed := min (BUF_SIZE - w1.buf.length) input.length
      innerWriteAllF fuel world1 tmpPath ⟨w1.alive, w1.buf ++ input.take consumed⟩
        (input.drop consumed)

/-- `Write::write` of `FileCryptoWriter` driven to completion (as the
streaming copy helpers drive it): all bytes go through the inner writer
and `pos` advances by their count. -/
def fcwWriteAll (world : FileWorld) (fcw : FileCryptoWriter) (bs : List Nat) :
    Outcome IoErr (FileWorld × FileCryptoWriter) Unit :=
  match innerWriteAllF (bs.length + 1) world fcw.tmp_file_path fcw.writer bs with
  | .err e s => .err e (s.1, { fcw with writer := s.2 })
  | .panicked => .panicked
  | .hangs => .hangs
  | .ok _ (world1, w1) =>
    .ok () (world1, { fcw with writer := w1, pos := fcw.pos + bs.length })

/-- Modelled from the spec: `crypto::copy_from_file` (its module is not
among the given sources).  Per §4.2, the plaintext range
`[off, min(off+len, eof))` of the file is decrypted and streamed
through the writer. -/
def copy_from_file (world : FileWorld) (fcw : FileCryptoWriter) (off len : Nat) :
    Outcome IoErr (FileWorld × FileCryptoWriter) Unit :=
  match world.files fcw.file with
  | none => .err .notFound (world, fcw)
  | some c => fcwWriteAll world fcw ((c.drop off).take len)

/-- Modelled from the spec: `crypto::copy_from_file_exact` (module not
among the given sources) — the bounded copy of exactly `len` bytes used
after the backward-seek rename (§4.2); fails if the file is shorter. -/
def copy_from_file_exact (world : FileWorld) (fcw : FileCryptoWriter)
    (off len : Nat) : Outcome IoErr (FileWorld × FileCryptoWriter) Unit :=
  match world.files fcw.file with
  | none => .err .notFound (world, fcw)
  | some c =>
    if off + len ≤ c.length then fcwWriteAll world fcw ((c.drop off).take len)
    else .err .unexpectedEof (world, fcw)

/-- Modelled from the spec: `stream_util::fill_zeros` (module not among
the given sources) — §4.2 forward seek: "the remainder is filled with
zero bytes". -/
def fill_zeros (world : FileWorld) (fcw : FileCryptoWriter) (n : Nat) :
    Outcome IoErr (FileWorld × FileCryptoWriter) Unit :=
  fcwWriteAll world fcw (List.replicate n 0)

/-- The tail of `seek_from_start`'s backward branch, after the finished
staging file is known: atomic rename of staging over canonical,
recreation of the writer against a fresh staging file with `pos = 0`,
the `on_file_content_changed(0)` callback, and the bounded copy of the
first `pos` bytes of the renamed canonical file through the fresh
sealer. -/
def backwardRebuildTail (world3 : FileWorld) (fcw2 : FileCryptoWriter)
    (w3 : InnerWriter) (pos : Nat) :
    Outcome IoErr (FileWorld × FileCryptoWriter) Nat :=
  match world3.files fcw2.tmp_file_path with
  | none => .err .notFound (world3, { fcw2 with writer := w3 })
  | some t =>
    let world4 := setWFile (setWFile world3 fcw2.tmp_file_path none)
      fcw2.file (some t)
    let newTmp := world4.nextTmp
    let world5 := { world4 with
      files := fun q => if q = newTmp then some [] else world4.files q,
      nextTmp := world4.nextTmp + 1 }
    let fcw5 := { fcw2 with
      writer := (⟨true, []⟩ : InnerWriter), tmp_file_path := newTmp, pos := 0 }
    let world6 := { world5 with callbackLog := world5.callbackLog ++ [0] }
    match copy_from_file_exact world6 fcw5 fcw5.pos pos with
    | .err e s => .err e s
    | .panicked => .panicked
    | .hangs => .hangs
    | .ok _ (world7, fcw7) => .ok fcw7.pos (world7, fcw7)

/-- `FileCryptoWriter::seek_from_start`.  Equal position is a no-op;
forward seeks re-encrypt the gap from the canonical file and zero-fill
past EOF; backward seeks flush, merge the canonical tail into staging,
finish, atomically rename staging over canonical, recreate the writer on
a fresh staging file with `pos = 0`, invoke the content-changed callback
with 0, and re-encrypt exactly the first `pos` target bytes through the
fresh writer. -/
def seek_from_start (world : FileWorld) (fcw : FileCryptoWriter) (pos : Nat) :
    Outcome IoErr (FileWorld × FileCryptoWriter) Nat :=
  if pos = fcw.pos then .ok pos (world, fcw)
  else if fcw.pos < pos then
    match copy_from_file world fcw fcw.pos (pos - fcw.pos) with
    | .err e s => .err e s
    | .panicked => .panicked
    | .hangs => .hangs
    | .ok _ (world1, fcw1) =>
      if fcw1.pos < pos then
        match fill_zeros world1 fcw1 (pos - fcw1.pos) with
        | .err e s => .err e s
        | .panicked => .panicked
        | .hangs => .hangs
        | .ok _ (world2, fcw2) => .ok fcw2.pos (world2, fcw2)
      else .ok fcw1.pos (world1, fcw1)
  else
    match innerFlush world fcw.tmp_file_path fcw.writer with
    | .err e s => .err e (s.1, { fcw with writer := s.2 })
    | .panicked => .panicked
    | .hangs => .hangs
    | .ok _ (world1, w1) =>
      match copy_from_file world1 { fcw with writer := w1 } fcw.pos U64_MAX with
      | .err e s => .err e s
      | .panicked => .panicked
      | .hangs => .hangs
      | .ok _ (world2, fcw2) =>
        match innerFinish world2 fcw2.tmp_file_path fcw2.writer with
        | .err e s => .err e (s.1, { fcw2 with writer := s.2 })
        | .panicked => .panicked
        | .hangs => .hangs
        | .ok _ (world3, w3) => backwardRebuildTail world3 fcw2 w3 pos

/-- `Write::flush` for `FileCryptoWriter`: the source runs
`self.seek(SeekFrom::Start(0))` ("this will handle the flush and write
any dirty data"), which dispatches to `seek_from_start 0`. -/
def fcwFlush (world : FileWorld) (fcw : FileCryptoWriter) :
    Outcome IoErr (FileWorld × FileCryptoWriter) Unit :=
  match seek_from_start world fcw 0 with
  | .err e s => .err e s
  | .panicked => .panicked
  | .hangs => .hangs
  | .ok _ s => .ok () s

/-! ### C6: finish twice is UseAfterFinish; the partial chunk is sealed -/

/-- C6: on a live writer, the first `finish` seals and writes any
partial final chunk before returning the underlying sink, and a second
`finish` on the resulting writer returns the *UseAfterFinish* error
(`Other`: "finish called on already finished writer") rather than
succeeding. -/
theorem ringFinish_seals_then_use_after_finish (w : RingCryptoWriter)
    (chunks : List (List Nat)) (hout : w.out = some chunks) :
    ringFinish w =
      .ok (if 0 < w.buf.length then chunks ++ [w.buf] else chunks)
        ⟨none, []⟩ ∧
    ringFinish (⟨none, []⟩ : RingCryptoWriter) =
      .err (.otherMsg "finish called on already finished writer") ⟨none, []⟩ := by
  constructor
  · unfold ringFinish
    rw [hout]
    dsimp only
    by_cases hb : 0 < w.buf.length
    · rw [if_pos hb, if_pos hb]
      unfold ringEncryptAndWrite
      rw [hout]
    · rw [if_neg hb, if_neg hb]
      dsimp only
      rw [hout]
      have hnil : w.buf = [] := List.eq_nil_of_length_eq_zero (by omega)
      rw [hnil]
  · rfl

/-- Witness for C6 at a concrete writer holding a 1-byte partial
chunk. -/
theorem ringFinish_seals_then_use_after_finish_witness :
    ringFinish ⟨some [], [5]⟩ =
      .ok (if 0 < ([5] : List Nat).length then ([] : List (List Nat)) ++ [[5]] else [])
        ⟨none, []⟩ ∧
    ringFinish (⟨none, []⟩ : RingCryptoWriter) =
      .err (.otherMsg "finish called on already finished writer") ⟨none, []⟩ :=
  ringFinish_seals_then_use_after_finish ⟨some [], [5]⟩ [] rfl

/-! ### Inner-writer lemmas for the seekable file writer -/

theorem innerFlush_ok (world : FileWorld) (tmpPath : Nat) (w : InnerWriter)
    (tc : List Nat)
    (halive : w.alive = true) (hbuf : w.buf.length ≤ BUF_SIZE)
    (htc : world.files tmpPath = some tc) :
    ∃ world' w' tc',
      innerFlush world tmpPath w = .ok () (world', w') ∧
      world'.files tmpPath = some tc' ∧
      tc' ++ w'.buf = tc ++ w.buf ∧
      w'.alive = true ∧ w'.buf.length ≤ BUF_SIZE ∧
      (∀ p, p ≠ tmpPath → world'.files p = world.files p) ∧
      world'.nextTmp = world.nextTmp ∧
      world'.callbackLog = world.callbackLog := by
  unfold innerFlush
  by_cases h0 : w.buf.length = 0
  · rw [if_pos h0]
    exact ⟨world, w, tc, rfl, htc, rfl, halive, hbuf, fun _ _ => rfl, rfl, rfl⟩
  · rw [if_neg h0]
    by_cases hfull : BUF_SIZE - w.buf.length = 0
    · rw [if_pos hfull]
      unfold innerEncryptAndWrite
      rw [if_pos halive]
      refine ⟨_, _, tc ++ w.buf, rfl, ?_, ?_, rfl, ?_, ?_, rfl, rfl⟩
      · simp [setWFile, htc]
      · simp
      · simp
      · intro p hp
        simp [setWFile, hp]
    · rw [if_neg hfull]
      exact ⟨world, w, tc, rfl, htc, rfl, halive, hbuf, fun _ _ => rfl, rfl, rfl⟩

theorem innerFinish_ok (world : FileWorld) (tmpPath : Nat) (w : InnerWriter)
    (tc : List Nat)
    (halive : w.alive = true) (htc : world.files tmpPath = some tc) :
    ∃ world',
      innerFinish world tmpPath w = .ok () (world', ⟨false, []⟩) ∧
      world'.files tmpPath = some (tc ++ w.buf) ∧
      (∀ p, p ≠ tmpPath → world'.files p = world.files p) ∧
      world'.nextTmp = world.nextTmp ∧
      world'.callbackLog = world.callbackLog := by
  unfold innerFinish
  rw [if_pos halive]
  by_cases hb : 0 < w.buf.length
  · rw [if_pos hb]
    refine ⟨_, rfl, ?_, ?_, rfl, rfl⟩
    · simp [setWFile, htc]
    · intro p hp
      simp [setWFile, hp]
  · rw [if_neg hb]
    have hnil : w.buf = [] := List.eq_nil_of_length_eq_zero (by omega)
    refine ⟨world, rfl, ?_, fun _ _ => rfl, rfl, rfl⟩
    rw [hnil, List.append_nil]
    exact htc

theorem innerWriteAllF_cons (fuel : Nat) (world : FileWorld) (tmpPath : Nat)
    (w : InnerWriter) (b : Nat) (bs : List Nat) :
    innerWriteAllF (fuel + 1) world tmpPath w (b :: bs) =
      (match (if BUF_SIZE - w.buf.length = 0 then innerFlush world tmpPath w
              else .ok () (world, w) : Outcome IoErr (FileWorld × InnerWriter) Unit) with
       | .err e s => .err e s
       | .panicked => .panicked
       | .hangs => .hangs
       | .ok _ (world1, w1) =>
         innerWriteAllF fuel world1 tmpPath
           ⟨w1.alive, w1.buf ++ (b :: bs).take (min (BUF_SIZE - w1.buf.length) (b :: bs).length)⟩
           ((b :: bs).drop (min (BUF_SIZE - w1.buf.length) (b :: bs).length))) := rfl

theorem innerWriteAllF_ok :
    ∀ (fuel : Nat) (world : FileWorld) (tmpPath : Nat) (w : InnerWriter)
      (input tc : List Nat),
      w.alive = true → w.buf.length ≤ BUF_SIZE → input.length ≤ fuel →
      world.files tmpPath = some tc →
      ∃ world' w' tc',
        innerWriteAllF fuel world tmpPath w input = .ok () (world', w') ∧
        world'.files tmpPath = some tc' ∧
        tc' ++ w'.buf = tc ++ w.buf ++ input ∧
        w'.alive = true ∧ w'.buf.length ≤ BUF_SIZE ∧
        (∀ p, p ≠ tmpPath → world'.files p = world.files p) ∧
        world'.nextTmp = world.nextTmp ∧
        world'.callbackLog = world.callbackLog := by
  intro fuel
  induction fuel with
  | zero =>
    intro world tmpPath w input tc halive hbuf hlen htc
    have : input = [] := List.eq_nil_of_length_eq_zero (by omega)
    subst this
    exact ⟨world, w, tc, rfl, htc, by simp, halive, hbuf, fun _ _ => rfl, rfl, rfl⟩
  | succ n ih =>
    intro world tmpPath w input tc halive hbuf hlen htc
    rcases input with - | ⟨b, bs⟩
    · exact ⟨world, w, tc, rfl, htc, by simp, halive, hbuf, fun _ _ => rfl, rfl, rfl⟩
    · rw [innerWriteAllF_cons]
      have hlcons : (b :: bs).length = bs.length + 1 := List.length_cons ..
      obtain ⟨world1, w1, tc1, hflush, htc1, hcat1, halive1, hbuf1, hfr1, hnt1, hcb1⟩ :=
        innerFlush_ok world tmpPath w tc halive hbuf htc
      by_cases hfull : BUF_SIZE - w.buf.length = 0
      · -- a flush runs first and it must actually seal (the buffer is full)
        rw [if_pos hfull, hflush]
        dsimp only
        have hB : 0 < BUF_SIZE := by norm_num [BUF_SIZE]
        have hsealed : w1.buf.length = 0 := by
          unfold innerFlush at hflush
          rw [if_neg (by omega)] at hflush
          rw [if_pos hfull] at hflush
          unfold innerEncryptAndWrite at hflush
          rw [if_pos halive] at hflush
          injection hflush with _ hpair
          have hw : w1 = (⟨true, []⟩ : InnerWriter) := (congrArg Prod.snd hpair).symm
          rw [hw]
          rfl
        have hroom1 : 0 < BUF_SIZE - w1.buf.length := by omega
        have hcons : 0 < min (BUF_SIZE - w1.buf.length) (b :: bs).length := by
          rw [hlcons]
          omega
        obtain ⟨world', w', tc', hrec, htc', hcat', halive', hbuf', hfr', hnt', hcb'⟩ :=
          ih world1 tmpPath
            ⟨w1.alive, w1.buf ++ (b :: bs).take (min (BUF_SIZE - w1.buf.length) (b :: bs).length)⟩
            ((b :: bs).drop (min (BUF_SIZE - w1.buf.length) (b :: bs).length)) tc1
            (by simpa using halive1)
            (by rw [show (⟨w1.alive, w1.buf ++ (b :: bs).take (min (BUF_SIZE - w1.buf.length) (b :: bs).length)⟩ : InnerWriter).buf = w1.buf ++ (b :: bs).take (min (BUF_SIZE - w1.buf.length) (b :: bs).length) from rfl, List.length_append, List.length_take, hlcons]; omega)
            (by rw [List.length_drop, hlcons]; rw [hlcons] at hlen; omega)
            htc1
        refine ⟨world', w', tc', hrec, htc', ?_, halive', hbuf',
          fun p hp => (hfr' p hp).trans (hfr1 p hp), hnt'.trans hnt1,
          hcb'.trans hcb1⟩
        rw [hcat']
        calc tc1 ++ ((⟨w1.alive, w1.buf ++ (b :: bs).take (min (BUF_SIZE - w1.buf.length) (b :: bs).length)⟩ : InnerWriter).buf) ++ ((b :: bs).drop (min (BUF_SIZE - w1.buf.length) (b :: bs).length))
            = (tc1 ++ w1.buf) ++ ((b :: bs).take (min (BUF_SIZE - w1.buf.length) (b :: bs).length) ++ (b :: bs).drop (min (BUF_SIZE - w1.buf.length) (b :: bs).length)) := by
              simp [List.append_assoc]
          _ = tc ++ w.buf ++ (b :: bs) := by rw [hcat1, List.take_append_drop]
      · -- no flush: the buffer has room already
        rw [if_neg hfull]
        dsimp only
        have hcons : 0 < min (BUF_SIZE - w.buf.length) (b :: bs).length := by
          rw [hlcons]
          omega
        obtain ⟨world', w', tc', hrec, htc', hcat', halive', hbuf', hfr', hnt', hcb'⟩ :=
          ih world tmpPath
            ⟨w.alive, w.buf ++ (b :: bs).take (min (BUF_SIZE - w.buf.length) (b :: bs).length)⟩
            ((b :: bs).drop (min (BUF_SIZE - w.buf.length) (b :: bs).length)) tc
            (by simpa using halive)
            (by rw [show (⟨w.alive, w.buf ++ (b :: bs).take (min (BUF_SIZE - w.buf.length) (b :: bs).length)⟩ : InnerWriter).buf = w.buf ++ (b :: bs).take (min (BUF_SIZE - w.buf.length) (b :: bs).length) from rfl, List.length_append, List.length_take, hlcons]; omega)
            (by rw [List.length_drop, hlcons]; rw [hlcons] at hlen; omega)
            htc
        refine ⟨world', w', tc', hrec, htc', ?_, halive', hbuf', hfr', hnt', hcb'⟩
        rw [hcat']
        calc tc ++ ((⟨w.alive, w.buf ++ (b :: bs).take (min (BUF_SIZE - w.buf.length) (b :: bs).length)⟩ : InnerWriter).buf) ++ ((b :: bs).drop (min (BUF_SIZE - w.buf.length) (b :: bs).length))
            = (tc ++ w.buf) ++ ((b :: bs).take (min (BUF_SIZE - w.buf.length) (b :: bs).length) ++ (b :: bs).drop (min (BUF_SIZE - w.buf.length) (b :: bs).length)) := by
              simp [List.append_assoc]
          _ = tc ++ w.buf ++ (b :: bs) := by rw [List.take_append_drop]

/-- Spec of the rebuild tail: after the rename the canonical file holds
the merged content `M`, the writer is fresh on a new staging path with
`pos = 0`, the callback has been invoked with 0, and exactly the first
`target` bytes of `M` have been streamed through the fresh sealer,
leaving the position at `target`. -/
theorem backwardRebuildTail_spec (world3 : FileWorld) (fcw2 : FileCryptoWriter)
    (w3 : InnerWriter) (target : Nat) (M : List Nat)
    (hM : world3.files fcw2.tmp_file_path = some M)
    (htlen : target ≤ M.length)
    (hf1 : fcw2.file < world3.nextTmp) :
    ∃ world' fcw',
      backwardRebuildTail world3 fcw2 w3 target = .ok target (world', fcw') ∧
      world'.files fcw2.file = some M ∧
      fcw'.pos = target ∧
      fcw'.file = fcw2.file ∧
      fcw'.tmp_file_path = world3.nextTmp ∧
      fcw'.writer.alive = true ∧
      world'.callbackLog = world3.callbackLog ++ [0] ∧
      world'.nextTmp = world3.nextTmp + 1 ∧
      (world'.files fcw'.tmp_file_path).getD [] ++ fcw'.writer.buf =
        M.take target := by
  unfold backwardRebuildTail
  rw [hM]
  dsimp only [setWFile]
  unfold copy_from_file_exact
  have hx : ({ files := fun q => if q = world3.nextTmp then some [] else if q = fcw2.file then some M else if q = fcw2.tmp_file_path then none else world3.files q, nextTmp := world3.nextTmp + 1, callbackLog := world3.callbackLog ++ [0] } : FileWorld).files ({ file := fcw2.file, nonce_seed := fcw2.nonce_seed, pos := 0, tmp_file_path := world3.nextTmp, writer := { alive := true, buf := [] } } : FileCryptoWriter).file = some M := by
    dsimp only
    rw [if_neg (by omega), if_pos rfl]
  rw [hx]
  dsimp only
  rw [if_pos (by omega : 0 + target ≤ M.length)]
  rw [List.drop_zero]
  unfold fcwWriteAll
  dsimp only
  obtain ⟨world7, w7, tc7, hrec, htc7, hcat7, halive7, hbuf7, hfr7, hnt7, hcb7⟩ :=
    innerWriteAllF_ok ((M.take target).length + 1)
      ({ files := fun q => if q = world3.nextTmp then some [] else if q = fcw2.file then some M else if q = fcw2.tmp_file_path then none else world3.files q, nextTmp := world3.nextTmp + 1, callbackLog := world3.callbackLog ++ [0] } : FileWorld)
      world3.nextTmp ⟨true, []⟩ (M.take target) []
      rfl (by simp [BUF_SIZE]) (by omega) (by simp)
  rw [hrec]
  dsimp only
  rw [show (0 : Nat) + (M.take target).length = target by rw [List.length_take]; omega]
  refine ⟨world7, _, rfl, ?_, rfl, rfl, rfl, ?_, ?_, ?_, ?_⟩
  · rw [hfr7 fcw2.file (by omega)]
    dsimp only
    rw [if_neg (by omega), if_pos rfl]
  · exact halive7
  · rw [hcb7]
  · rw [hnt7]
  · rw [htc7]
    simpa using hcat7

/-- Full specification of a backward seek (`target < pos`) on the
seekable crypto writer, under the writer invariants (live inner writer,
staged bytes = `pos`, existing staging and canonical files, fresh temp
names above every live path): it succeeds, the canonical file afterwards
holds the merge of the staged plaintext with the old canonical tail, the
writer is recreated on a fresh staging path, the callback was invoked
with 0, exactly the first `target` bytes were re-sealed, and the
position is `target`. -/
theorem seek_backward_spec (world : FileWorld) (fcw : FileCryptoWriter)
    (target : Nat) (tc c : List Nat)
    (halive : fcw.writer.alive = true)
    (hbuf : fcw.writer.buf.length ≤ BUF_SIZE)
    (htc : world.files fcw.tmp_file_path = some tc)
    (hc : world.files fcw.file = some c)
    (hpos : fcw.pos = tc.length + fcw.writer.buf.length)
    (htarget : target < fcw.pos)
    (hcmax : c.length ≤ U64_MAX)
    (hfile : fcw.file < world.nextTmp)
    (hfr2 : fcw.tmp_file_path < world.nextTmp)
    (hft : fcw.file ≠ fcw.tmp_file_path) :
    ∃ world' fcw',
      seek_from_start world fcw target = .ok target (world', fcw') ∧
      world'.files fcw.file = some (tc ++ fcw.writer.buf ++ c.drop fcw.pos) ∧
      fcw'.pos = target ∧
      fcw'.file = fcw.file ∧
      fcw'.tmp_file_path = world.nextTmp ∧
      fcw'.tmp_file_path ≠ fcw.tmp_file_path ∧
      fcw'.writer.alive = true ∧
      world'.callbackLog = world.callbackLog ++ [0] ∧
      world'.nextTmp = world.nextTmp + 1 ∧
      (world'.files fcw'.tmp_file_path).getD [] ++ fcw'.writer.buf =
        (tc ++ fcw.writer.buf ++ c.drop fcw.pos).take target := by
  unfold seek_from_start
  rw [if_neg (by omega), if_neg (by omega)]
  obtain ⟨world1, w1, tc1, hflush, htc1, hcat1, halive1, hbuf1, hfr1, hnt1, hcb1⟩ :=
    innerFlush_ok world fcw.tmp_file_path fcw.writer tc halive hbuf htc
  rw [hflush]
  dsimp only
  unfold copy_from_file
  have hc1 : world1.files ({ fcw with writer := w1 } : FileCryptoWriter).file = some c := by
    rw [show ({ fcw with writer := w1 } : FileCryptoWriter).file = fcw.file from rfl]
    rw [hfr1 fcw.file hft]
    exact hc
  rw [hc1]
  dsimp only
  rw [show (c.drop fcw.pos).take U64_MAX = c.drop fcw.pos from
      List.take_of_length_le (by rw [List.length_drop]; omega)]
  unfold fcwWriteAll
  dsimp only
  obtain ⟨world2, w2, tc2, hrec2, htc2, hcat2, halive2, hbuf2, hfr2', hnt2, hcb2⟩ :=
    innerWriteAllF_ok ((c.drop fcw.pos).length + 1) world1 fcw.tmp_file_path w1
      (c.drop fcw.pos) tc1 halive1 hbuf1 (by omega) htc1
  rw [hrec2]
  dsimp only
  obtain ⟨world3, hfin, htc3, hfr3, hnt3, hcb3⟩ :=
    innerFinish_ok world2 fcw.tmp_file_path w2 tc2 halive2 htc2
  rw [hfin]
  dsimp only
  have hMeq : tc2 ++ w2.buf = tc ++ fcw.writer.buf ++ c.drop fcw.pos := by
    rw [hcat2, hcat1]
  obtain ⟨world', fcw', htail, hfiles, hpos', hfile', htmp', halive', hcb', hnt', hstag'⟩ :=
    backwardRebuildTail_spec world3
      { file := fcw.file, nonce_seed := fcw.nonce_seed,
        pos := fcw.pos + (c.drop fcw.pos).length,
        tmp_file_path := fcw.tmp_file_path, writer := w2 }
      ⟨false, []⟩ target (tc ++ fcw.writer.buf ++ c.drop fcw.pos)
      (by rw [show ({ file := fcw.file, nonce_seed := fcw.nonce_seed, pos := fcw.pos + (c.drop fcw.pos).length, tmp_file_path := fcw.tmp_file_path, writer := w2 } : FileCryptoWriter).tmp_file_path = fcw.tmp_file_path from rfl, htc3, hMeq])
      (by simp [List.length_append]; omega)
      (by rw [hnt3, hnt2, hnt1]; exact hfile)
  refine ⟨world', fcw', htail, hfiles, hpos', hfile', ?_, ?_, halive', ?_, ?_, hstag'⟩
  · rw [htmp', hnt3, hnt2, hnt1]
  · rw [htmp', hnt3, hnt2, hnt1]
    omega
  · rw [hcb', hcb3, hcb2, hcb1]
  · rw [hnt', hnt3, hnt2, hnt1]

/-- C4: a backward seek (`target_pos < pos`) on the seekable crypto file
writer performs, in order: flush of buffered plaintext, re-sealing of
the canonical file's suffix into staging, finalisation, atomic rename of
the staging file over the canonical file (the canonical file then holds
the merged content), recreation of the writer against a fresh staging
file with `pos` reset to 0, invocation of `on_file_content_changed(0)`,
and a copy of exactly the first `target_pos` bytes of the renamed
canonical file through the fresh sealer, after which the writer's
position equals `target_pos`. -/
theorem seek_backward_rebuild_protocol (world : FileWorld)
    (fcw : FileCryptoWriter) (target : Nat) (tc c : List Nat)
    (halive : fcw.writer.alive = true)
    (hbuf : fcw.writer.buf.length ≤ BUF_SIZE)
    (htc : world.files fcw.tmp_file_path = some tc)
    (hc : world.files fcw.file = some c)
    (hpos : fcw.pos = tc.length + fcw.writer.buf.length)
    (htarget : target < fcw.pos)
    (hcmax : c.length ≤ U64_MAX)
    (hfile : fcw.file < world.nextTmp)
    (hfr2 : fcw.tmp_file_path < world.nextTmp)
    (hft : fcw.file ≠ fcw.tmp_file_path) :
    ∃ world' fcw',
      seek_from_start world fcw target = .ok target (world', fcw') ∧
      world'.files fcw.file = some (tc ++ fcw.writer.buf ++ c.drop fcw.pos) ∧
      fcw'.pos = target ∧
      fcw'.file = fcw.file ∧
      fcw'.tmp_file_path = world.nextTmp ∧
      fcw'.tmp_file_path ≠ fcw.tmp_file_path ∧
      fcw'.writer.alive = true ∧
      world'.callbackLog = world.callbackLog ++ [0] ∧
      world'.nextTmp = world.nextTmp + 1 ∧
      (world'.files fcw'.tmp_file_path).getD [] ++ fcw'.writer.buf =
        (tc ++ fcw.writer.buf ++ c.drop fcw.pos).take target :=
  seek_backward_spec world fcw target tc c halive hbuf htc hc hpos htarget
    hcmax hfile hfr2 hft

/-- The host environment for the C4 witness: canonical file 0 holding
`[1,2,3]`, staging file 1 empty, temp names from 2 up. -/
def worldC4 : FileWorld where
  files := fun p => if p = 0 then some [1, 2, 3] else if p = 1 then some [] else none
  nextTmp := 2
  callbackLog := []

/-- The C4 witness writer: 2 bytes (`[9,9]`) buffered, position 2. -/
def fcwC4 : FileCryptoWriter where
  file := 0
  nonce_seed := 0
  pos := 2
  tmp_file_path := 1
  writer := ⟨true, [9, 9]⟩

/-- Witness for C4: seeking back to 1 merges `[9,9]` with the canonical
tail `[3]` into the canonical file, recreates the writer on fresh
staging path 2, logs the callback, and re-seals exactly `[9]`. -/
theorem seek_backward_rebuild_protocol_witness :
    ∃ world' fcw',
      seek_from_start worldC4 fcwC4 1 = .ok 1 (world', fcw') ∧
      world'.files fcwC4.file =
        some (([] : List Nat) ++ [9, 9] ++ ([1, 2, 3] : List Nat).drop fcwC4.pos) ∧
      fcw'.pos = 1 ∧
      fcw'.file = fcwC4.file ∧
      fcw'.tmp_file_path = worldC4.nextTmp ∧
      fcw'.tmp_file_path ≠ fcwC4.tmp_file_path ∧
      fcw'.writer.alive = true ∧
      world'.callbackLog = worldC4.callbackLog ++ [0] ∧
      world'.nextTmp = worldC4.nextTmp + 1 ∧
      (world'.files fcw'.tmp_file_path).getD [] ++ fcw'.writer.buf =
        (([] : List Nat) ++ [9, 9] ++ ([1, 2, 3] : List Nat).drop fcwC4.pos).take 1 :=
  seek_backward_rebuild_protocol worldC4 fcwC4 1 [] [1, 2, 3] rfl
    (by decide) rfl rfl rfl (by decide) (by norm_num [U64_MAX])
    (by decide) (by decide) (by decide)

/-! ### C5: flush -/

/-- C5 (amended): `flush` on the seekable crypto file writer is the
seek to position 0 (`seek(SeekFrom::Start(0))`): it is a no-op exactly
when `pos = 0`; when `pos > 0` it forces the tail-suffix merge and
atomic rename and *resets the logical position to 0* (it does not leave
the position unchanged). -/
theorem flush_is_seek_to_start (world : FileWorld) (fcw : FileCryptoWriter)
    (tc c : List Nat)
    (halive : fcw.writer.alive = true)
    (hbuf : fcw.writer.buf.length ≤ BUF_SIZE)
    (htc : world.files fcw.tmp_file_path = some tc)
    (hc : world.files fcw.file = some c)
    (hpos : fcw.pos = tc.length + fcw.writer.buf.length)
    (hcmax : c.length ≤ U64_MAX)
    (hfile : fcw.file < world.nextTmp)
    (hfr2 : fcw.tmp_file_path < world.nextTmp)
    (hft : fcw.file ≠ fcw.tmp_file_path) :
    (fcw.pos = 0 → fcwFlush world fcw = .ok () (world, fcw)) ∧
    (0 < fcw.pos → ∃ world' fcw',
      fcwFlush world fcw = .ok () (world', fcw') ∧
      fcw'.pos = 0 ∧ fcw'.pos ≠ fcw.pos ∧
      world'.files fcw.file = some (tc ++ fcw.writer.buf ++ c.drop fcw.pos) ∧
      world'.callbackLog = world.callbackLog ++ [0]) := by
  constructor
  · intro h0
    unfold fcwFlush seek_from_start
    rw [if_pos h0.symm]
  · intro hgt
    obtain ⟨world', fcw', hseek, hfiles, hpos', -, -, -, -, hcb, -, -⟩ :=
      seek_backward_spec world fcw 0 tc c halive hbuf htc hc hpos hgt
        hcmax hfile hfr2 hft
    refine ⟨world', fcw', ?_, hpos', by omega, hfiles, hcb⟩
    unfold fcwFlush
    rw [hseek]

/-- The host environment for the C5 fixtures (same shape as C4's). -/
def worldC5 : FileWorld where
  files := fun p => if p = 0 then some [1, 2, 3] else if p = 1 then some [] else none
  nextTmp := 2
  callbackLog := []

/-- The C5 fixture writer: dirty buffer `[9,9]`, position 2. -/
def fcwC5 : FileCryptoWriter where
  file := 0
  nonce_seed := 0
  pos := 2
  tmp_file_path := 1
  writer := ⟨true, [9, 9]⟩

/-- Witness for C5 (amended) at the concrete fixture. -/
theorem flush_is_seek_to_start_witness :
    (fcwC5.pos = 0 → fcwFlush worldC5 fcwC5 = .ok () (worldC5, fcwC5)) ∧
    (0 < fcwC5.pos → ∃ world' fcw',
      fcwFlush worldC5 fcwC5 = .ok () (world', fcw') ∧
      fcw'.pos = 0 ∧ fcw'.pos ≠ fcwC5.pos ∧
      world'.files fcwC5.file =
        some (([] : List Nat) ++ [9, 9] ++ ([1, 2, 3] : List Nat).drop fcwC5.pos) ∧
      world'.callbackLog = worldC5.callbackLog ++ [0]) :=
  flush_is_seek_to_start worldC5 fcwC5 [] [1, 2, 3] rfl
    (by decide) rfl rfl rfl (by norm_num [U64_MAX])
    (by decide) (by decide) (by decide)

/-- The state after the counterexample flush. -/
def c5res : FileWorld × FileCryptoWriter :=
  match fcwFlush worldC5 fcwC5 with
  | .ok _ s => s
  | _ => (worldC5, fcwC5)

/-- Counterexample for C5 as stated: at the concrete fixture (position
2, dirty buffer), `flush` succeeds but moves the logical position to 0 —
it does *not* leave the writer's position unchanged, because it seeks to
0 rather than to the current position. -/
theorem flush_changes_position_cx :
    fcwFlush worldC5 fcwC5 = .ok () c5res ∧
    c5res.2.pos = 0 ∧
    c5res.2.pos ≠ fcwC5.pos := by
  refine ⟨rfl, by decide, by decide⟩

end Rencfs
